import Mathlib

/-!
Verification of the corner cut-out algorithm of `scripts/cutout.py`
(ekmelos repository).

The script determines, for each corner of a glyph's bounding box, the
largest axis-aligned rectangle lying outside of all (clockwise) contours,
shrinks it by a safety margin, and draws it when it is large enough.

The shallow embedding below mirrors the Python source: coordinates are
rationals (`ℚ`), scan rows are integers, Python's `int()` truncation is
`pyInt`, the mutable `Cutout` objects become explicit state passing, and
the two scan loops become fuel-based recursions whose fuel is the exact
iteration count of the corresponding Python `range`.  The north-pass
state additionally records, as ghost data, the rows at which each north
accumulator was fed and how many of those calls were consumed without
stopping; these fields are write-only and do not influence the computation.
-/

/- Batteries marks the rational-number operations irreducible, which
blocks `decide` on concrete rational computations; restore the default
reducibility for this verification development. -/
attribute [local semireducible] Rat.mul Rat.add Rat.sub Rat.inv Rat.ofScientific

namespace Ekmelos

/-- `MAX = 10000`, the sentinel scale constant of cutout.py. -/
def MAX : ℤ := 10000

/-- Python `int()` truncation toward zero, on rationals. -/
def pyInt (q : ℚ) : ℤ := if q < 0 then ⌈q⌉ else ⌊q⌋

/-- The global metrics of cutout.py: the em-derived thresholds
(`widthMin`, `heightMin`, `shrinkBy`, `shrinkMin`) together with the
bounding box of the currently processed glyph (`xMin`, `xMax`, `yMin`,
`yMax`). -/
structure Config where
  widthMin : ℤ
  heightMin : ℤ
  shrinkBy : ℚ
  shrinkMin : ℤ
  xMin : ℚ
  xMax : ℚ
  yMin : ℚ
  yMax : ℚ
deriving Repr, DecidableEq

/-- The em-size specific metrics exactly as computed at the top of
cutout.py: `widthMin = heightMin = int(em * 0.01)`, `shrinkBy = 0.05`,
`shrinkMin = int(em * 0.015)`. -/
def Config.ofFont (em xMin xMax yMin yMax : ℚ) : Config :=
  { widthMin := pyInt (em * (1 / 100))
    heightMin := pyInt (em * (1 / 100))
    shrinkBy := 5 / 100
    shrinkMin := pyInt (em * (15 / 1000))
    xMin := xMin, xMax := xMax, yMin := yMin, yMax := yMax }

/-- State of class `Cutout` of cutout.py: the data of one cut-out
rectangle.  `dx`, `dy` are the direction signs of the corner, `cx`, `cy`
the combined inner corner over all contours, `x`, `y` the best inner
corner of the current contour, `xm` the running outermost x, `area` the
best area so far and `go` the active flag. -/
structure Cutout where
  dx : ℤ
  dy : ℤ
  cx : ℚ
  cy : ℚ
  x : ℚ
  y : ℚ
  xm : ℚ
  area : ℚ
  go : Bool
deriving Repr, DecidableEq

/-- `Cutout.__init__(x, y)`: stores the direction signs and initializes
the combined corner with the sentinel `(x * MAX, y * MAX)`.  The per-scan
fields are given inert defaults; the script always calls `reset` before
using them. -/
def Cutout.init (dx dy : ℤ) : Cutout :=
  { dx := dx, dy := dy
    cx := ((dx * MAX : ℤ) : ℚ), cy := ((dy * MAX : ℤ) : ℚ)
    x := 0, y := 0, xm := 0, area := 0, go := false }

/-- `Cutout.reset()`. -/
def Cutout.reset (c : Cutout) : Cutout :=
  { c with
    x := ((c.dx * MAX : ℤ) : ℚ)
    y := ((c.dy * MAX : ℤ) : ℚ)
    xm := ((c.dx * MAX : ℤ) : ℚ)
    area := 0
    go := true }

/-- `Cutout.extent(x, y)`: width and height of the rectangle with inner
corner `(x, y)`, measured to the bounding-box edges on this corner's
side. -/
def Cutout.extent (cfg : Config) (c : Cutout) (x y : ℚ) : ℚ × ℚ :=
  ((if c.dx = -1 then cfg.xMax - x else x - cfg.xMin),
   (if c.dy = -1 then cfg.yMax - y else y - cfg.yMin))

/-- `Cutout.fit(x, y)`: consume one scan row.  `count` is the script's
global `count` variable (number of real rows seen so far, starting from
`-1`); on the first real row (`count == 0`) the best area is reset.
Returns the updated state and `true` iff scanning stops because the gap
is too small (`self.go = False`). -/
def Cutout.fit (cfg : Config) (count : ℤ) (c : Cutout) (x y : ℚ) : Cutout × Bool :=
  let c := if count = 0 then { c with area := 0 } else c
  if c.dx = -1 then
    -- SE, NE
    let xr : ℤ := ⌈x⌉
    if cfg.xMax - (xr : ℚ) < (cfg.widthMin : ℚ) then
      ({ c with go := false }, true)
    else
      let xc : ℚ := max (xr : ℚ) c.xm
      let c := { c with xm := xc }
      let wh := c.extent cfg xc y
      let a := wh.1 * wh.2
      if c.area ≤ a then
        ({ c with x := xc, y := y, area := a }, false)
      else
        (c, false)
  else
    -- SW, NW
    let xr : ℤ := ⌊x⌋
    if (xr : ℚ) - cfg.xMin < (cfg.widthMin : ℚ) then
      ({ c with go := false }, true)
    else
      let xc : ℚ := min (xr : ℚ) c.xm
      let c := { c with xm := xc }
      let wh := c.extent cfg xc y
      let a := wh.1 * wh.2
      if c.area ≤ a then
        ({ c with x := xc, y := y, area := a }, false)
      else
        (c, false)

/-- `Cutout.finish()`: reduce the combined rectangle by the shrink
margins and decide whether it is large enough.  Returns the updated
state (with `x`, `y` set to the shrunk inner corner) and the validity
flag. -/
def Cutout.finish (cfg : Config) (c : Cutout) : Cutout × Bool :=
  if |c.cx| = ((MAX : ℤ) : ℚ) then
    (c, false)
  else
    let wh := c.extent cfg c.cx c.cy
    let sw : ℤ := max (pyInt (wh.1 * cfg.shrinkBy)) cfg.shrinkMin
    let sh : ℤ := max (pyInt (wh.2 * cfg.shrinkBy)) cfg.shrinkMin
    let c := { c with
      x := c.cx - (sw : ℚ) * (c.dx : ℚ)
      y := c.cy - (sh : ℚ) * (c.dy : ℚ) }
    (c, decide ((cfg.widthMin : ℚ) ≤ wh.1 - (sw : ℚ)) &&
        decide ((cfg.heightMin : ℚ) ≤ wh.2 - (sh : ℚ)))

/-- A contour of the foreground layer, exposing exactly what cutout.py
uses: its winding direction and the `xBoundsAtY` query (the horizontal
extent at an integer row, or `none` when the contour does not reach that
row). -/
structure Contour where
  clockwise : Bool
  xBoundsAtY : ℤ → Option (ℚ × ℚ)

/-- State of the south (bottom-up) pass: the SE and SW accumulators, the
recorded stopping rows `yMinE`, `yMinW`, and the global `count`. -/
structure SState where
  se : Cutout
  sw : Cutout
  yMinE : ℤ
  yMinW : ℤ
  count : ℤ
deriving Repr

/-- One iteration of the south loop body at row `y`.  Returns the new
state and `true` iff the loop continues (`SE.go or SW.go`). -/
def southStep (cfg : Config) (c : Contour) (st : SState) (y : ℤ) : SState × Bool :=
  let ob := c.xBoundsAtY y
  let b := ob.getD (cfg.xMax, cfg.xMin)
  let count := if ob.isSome then st.count + 1 else st.count
  let fe := if st.se.go then Cutout.fit cfg count st.se b.2 (y : ℚ) else (st.se, false)
  let yMinE := if fe.2 then y else st.yMinE
  let fw := if st.sw.go then Cutout.fit cfg count st.sw b.1 (y : ℚ) else (st.sw, false)
  let yMinW := if fw.2 then y else st.yMinW
  ({ se := fe.1, sw := fw.1, yMinE := yMinE, yMinW := yMinW, count := count },
   fe.1.go || fw.1.go)

/-- The south loop `for y in range(int(yMin), yMaxI + 1)`, as a fuel
recursion: `fuel` is the remaining number of rows, `y` the current row.
The early `break` of the script corresponds to the non-recursive
branch. -/
def southLoop (cfg : Config) (c : Contour) : ℕ → ℤ → SState → SState
  | 0, _, st => st
  | fuel + 1, y, st =>
    let sb := southStep cfg c st y
    if sb.2 then southLoop cfg c fuel (y + 1) sb.1 else sb.1

/-- State of the north (top-down) pass: the NE and NW accumulators and
the global `count`, plus ghost instrumentation: `neRows` (`nwRows`) are
the rows at which `NE.fit` (`NW.fit`) was invoked, and `neProc`
(`nwProc`) counts those invocations that did not stop. -/
structure NState where
  ne : Cutout
  nw : Cutout
  count : ℤ
  neRows : List ℤ
  nwRows : List ℤ
  neProc : ℕ
  nwProc : ℕ
deriving Repr

/-- One iteration of the north loop body at row `y` (with the recorded
south stopping rows `yMinE`, `yMinW`).  Returns the new state and `true`
iff the loop continues (`NE.go or NW.go`). -/
def northStep (cfg : Config) (c : Contour) (yMinE yMinW : ℤ) (st : NState) (y : ℤ) :
    NState × Bool :=
  let ob := c.xBoundsAtY y
  let b := ob.getD (cfg.xMax, cfg.xMin)
  let count := if ob.isSome then st.count + 1 else st.count
  let feedE := st.ne.go && decide (yMinE < y)
  let fe := if feedE then Cutout.fit cfg count st.ne b.2 (y : ℚ) else (st.ne, false)
  let feedW := st.nw.go && decide (yMinW < y)
  let fw := if feedW then Cutout.fit cfg count st.nw b.1 (y : ℚ) else (st.nw, false)
  ({ ne := fe.1, nw := fw.1, count := count
     neRows := if feedE then st.neRows ++ [y] else st.neRows
     nwRows := if feedW then st.nwRows ++ [y] else st.nwRows
     neProc := if feedE && !fe.2 then st.neProc + 1 else st.neProc
     nwProc := if feedW && !fw.2 then st.nwProc + 1 else st.nwProc },
   fe.1.go || fw.1.go)

/-- The north loop `for y in range(yMaxI, min(yMinE, yMinW), -1)` as a
fuel recursion; `y` decreases. -/
def northLoop (cfg : Config) (c : Contour) (yMinE yMinW : ℤ) : ℕ → ℤ → NState → NState
  | 0, _, st => st
  | fuel + 1, y, st =>
    let sb := northStep cfg c yMinE yMinW st y
    if sb.2 then northLoop cfg c yMinE yMinW fuel (y - 1) sb.1 else sb.1

/-- Result of scanning one contour: the four accumulators after the two
passes, the recorded south stopping rows, and the ghost row logs of the
north pass. -/
structure ScanResult where
  se : Cutout
  sw : Cutout
  ne : Cutout
  nw : Cutout
  yMinE : ℤ
  yMinW : ℤ
  neRows : List ℤ
  nwRows : List ℤ
  neProc : ℕ
  nwProc : ℕ
deriving Repr

/-- Scan one contour: reset the four accumulators, run the south pass
over `range(int(yMin), yMaxI + 1)` and then the north pass over
`range(yMaxI, min(yMinE, yMinW), -1)`, with `count` starting at `-1` in
each pass. -/
def scanContour (cfg : Config) (c : Contour) : ScanResult :=
  let yMaxI : ℤ := pyInt cfg.yMax
  let yMinI : ℤ := pyInt cfg.yMin
  let s0 : SState :=
    { se := (Cutout.init (-1) 1).reset
      sw := (Cutout.init 1 1).reset
      yMinE := yMaxI, yMinW := yMaxI, count := -1 }
  let s1 := southLoop cfg c (yMaxI + 1 - yMinI).toNat yMinI s0
  let n0 : NState :=
    { ne := (Cutout.init (-1) (-1)).reset
      nw := (Cutout.init 1 (-1)).reset
      count := -1, neRows := [], nwRows := [], neProc := 0, nwProc := 0 }
  let n1 := northLoop cfg c s1.yMinE s1.yMinW (yMaxI - min s1.yMinE s1.yMinW).toNat yMaxI n0
  { se := s1.se, sw := s1.sw, ne := n1.ne, nw := n1.nw
    yMinE := s1.yMinE, yMinW := s1.yMinW
    neRows := n1.neRows, nwRows := n1.nwRows
    neProc := n1.neProc, nwProc := n1.nwProc }

/-- The per-glyph state carried across contours: the four `Cutout`
objects `SE`, `SW`, `NE`, `NW`. -/
structure Glyph where
  se : Cutout
  sw : Cutout
  ne : Cutout
  nw : Cutout
deriving Repr

/-- The four freshly constructed `Cutout` objects of cutout.py:
`SE = Cutout(-1, 1)`, `SW = Cutout(1, 1)`, `NE = Cutout(-1, -1)`,
`NW = Cutout(1, -1)`. -/
def Glyph.start : Glyph :=
  { se := Cutout.init (-1) 1
    sw := Cutout.init 1 1
    ne := Cutout.init (-1) (-1)
    nw := Cutout.init 1 (-1) }

/-- The "combine with rects of former contours" block of cutout.py,
merging the scan result `r` of one contour into the glyph state `g`.
Python's truthiness test `NE.area` becomes `r.ne.area = 0` for the
fallback branch. -/
def combine (cfg : Config) (g : Glyph) (r : ScanResult) : Glyph :=
  { se := { r.se with cx := max g.se.cx r.se.x, cy := min g.se.cy r.se.y }
    sw := { r.sw with cx := min g.sw.cx r.sw.x, cy := min g.sw.cy r.sw.y }
    ne := { r.ne with
      cx := max g.ne.cx (if r.ne.area = 0 then r.se.x else r.ne.x)
      cy := max g.ne.cy (if r.ne.area = 0 then cfg.yMin else r.ne.y) }
    nw := { r.nw with
      cx := min g.nw.cx (if r.nw.area = 0 then r.sw.x else r.nw.x)
      cy := max g.nw.cy (if r.nw.area = 0 then cfg.yMin else r.nw.y) } }

/-- Process one contour of the foreground layer: non-clockwise contours
are skipped (`if not c.isClockwise(): continue`). -/
def scanOne (cfg : Config) (g : Glyph) (c : Contour) : Glyph :=
  if c.clockwise then combine cfg g (scanContour cfg c) else g

/-- Process the whole glyph: fold over its contours. -/
def scanGlyph (cfg : Config) (cs : List Contour) : Glyph :=
  cs.foldl (scanOne cfg) Glyph.start

/-- Emission of the NE rectangle: the four points drawn by the pen,
starting at the inner corner, or `none` when `NE.finish()` is false. -/
def emitNE (cfg : Config) (c : Cutout) : Option (List (ℚ × ℚ)) :=
  let f := c.finish cfg
  if f.2 then
    some [(f.1.x, f.1.y), (f.1.x, cfg.yMax), (cfg.xMax, cfg.yMax), (cfg.xMax, f.1.y)]
  else none

/-- Emission of the NW rectangle. -/
def emitNW (cfg : Config) (c : Cutout) : Option (List (ℚ × ℚ)) :=
  let f := c.finish cfg
  if f.2 then
    some [(f.1.x, f.1.y), (cfg.xMin, f.1.y), (cfg.xMin, cfg.yMax), (f.1.x, cfg.yMax)]
  else none

/-- Emission of the SE rectangle. -/
def emitSE (cfg : Config) (c : Cutout) : Option (List (ℚ × ℚ)) :=
  let f := c.finish cfg
  if f.2 then
    some [(f.1.x, f.1.y), (cfg.xMax, f.1.y), (cfg.xMax, cfg.yMin), (f.1.x, cfg.yMin)]
  else none

/-- Emission of the SW rectangle. -/
def emitSW (cfg : Config) (c : Cutout) : Option (List (ℚ × ℚ)) :=
  let f := c.finish cfg
  if f.2 then
    some [(f.1.x, f.1.y), (f.1.x, cfg.yMin), (cfg.xMin, cfg.yMin), (cfg.xMin, f.1.y)]
  else none

/-- The full per-glyph pipeline: scan all contours, then emit the four
rectangles in the order of the script (NE, NW, SE, SW). -/
def cutoutRects (cfg : Config) (cs : List Contour) :
    Option (List (ℚ × ℚ)) × Option (List (ℚ × ℚ)) ×
    Option (List (ℚ × ℚ)) × Option (List (ℚ × ℚ)) :=
  let g := scanGlyph cfg cs
  (emitNE cfg g.ne, emitNW cfg g.nw, emitSE cfg g.se, emitSW cfg g.sw)

/-! ### Invariant vocabulary -/

/-- `MAX` as a rational. -/
def MAXq : ℚ := ((MAX : ℤ) : ℚ)

/-- A rational that is an integer. -/
def isInt (q : ℚ) : Prop := ∃ n : ℤ, q = (n : ℚ)

/-- A rational that is an integer or equals the distinguished value `s`
(used for combined y values, where the north fallback can contribute the
raw `yMin`). -/
def IntOrEq (s q : ℚ) : Prop := isInt q ∨ q = s

/-- Sanity of the metrics: positive thresholds, a shrink minimum of at
least one unit, and a bounding box inside the sentinel range. -/
structure Sane (cfg : Config) : Prop where
  wpos : 0 < cfg.widthMin
  hpos : 0 < cfg.heightMin
  spos : 1 ≤ cfg.shrinkMin
  xlo : -MAXq < cfg.xMin
  xhi : cfg.xMax < MAXq
  ylo : -MAXq < cfg.yMin
  yhi : cfg.yMax < MAXq
  xfit : cfg.xMin + (cfg.widthMin : ℚ) ≤ cfg.xMax

/-- The contour's extents lie inside the glyph's bounding box (true by
construction for FontForge's `boundingBox`). -/
def InBox (cfg : Config) (c : Contour) : Prop :=
  ∀ y p, c.xBoundsAtY y = some p →
    cfg.xMin ≤ p.1 ∧ p.1 ≤ p.2 ∧ p.2 ≤ cfg.xMax

/-- Invariant of an east-facing accumulator (`dx = -1`): the running
outermost `xm` is an integer below the admissible ceiling, and the best
candidate is either still the reset sentinel (with zero area) or an
integer inner corner inside the admissible band whose row satisfies
`ρ`. -/
def EastGood (cfg : Config) (ρ : ℤ → Prop) (c : Cutout) : Prop :=
  isInt c.xm ∧ c.xm ≤ cfg.xMax - (cfg.widthMin : ℚ) ∧
  ((c.x = -MAXq ∧ c.y = ((c.dy * MAX : ℤ) : ℚ) ∧ c.area = 0) ∨
   (cfg.xMin ≤ c.x ∧ c.x ≤ cfg.xMax - (cfg.widthMin : ℚ) ∧ isInt c.x ∧
    ∃ r : ℤ, c.y = (r : ℚ) ∧ ρ r))

/-- Invariant of a west-facing accumulator (`dx = 1`), mirror of
`EastGood`. -/
def WestGood (cfg : Config) (ρ : ℤ → Prop) (c : Cutout) : Prop :=
  isInt c.xm ∧ cfg.xMin + (cfg.widthMin : ℚ) ≤ c.xm ∧
  ((c.x = MAXq ∧ c.y = ((c.dy * MAX : ℤ) : ℚ) ∧ c.area = 0) ∨
   (cfg.xMin + (cfg.widthMin : ℚ) ≤ c.x ∧ c.x ≤ cfg.xMax ∧ isInt c.x ∧
    ∃ r : ℤ, c.y = (r : ℚ) ∧ ρ r))

/-- Invariant of the combined SE corner across contours. -/
def CornSE (cfg : Config) (c : Cutout) : Prop :=
  (c.cx = -MAXq ∧ c.cy = MAXq) ∨
  (cfg.xMin ≤ c.cx ∧ c.cx ≤ cfg.xMax - (cfg.widthMin : ℚ) ∧ isInt c.cx ∧
   isInt c.cy ∧ c.cy ≤ ((pyInt cfg.yMax : ℤ) : ℚ))

/-- Invariant of the combined SW corner across contours. -/
def CornSW (cfg : Config) (c : Cutout) : Prop :=
  (c.cx = MAXq ∧ c.cy = MAXq) ∨
  (cfg.xMin + (cfg.widthMin : ℚ) ≤ c.cx ∧ c.cx ≤ cfg.xMax ∧ isInt c.cx ∧
   isInt c.cy ∧ c.cy ≤ ((pyInt cfg.yMax : ℤ) : ℚ))

/-- Invariant of the combined NE corner across contours.  The x and y
parts are decoupled (the fallback can contribute `yMin` to the combined
y while the x contribution is still the sentinel), but a non-sentinel x
forces a non-sentinel y.  The combined y is an integer or the raw
`yMin` (north fallback), and lies at or above `yMin`. -/
def CornNE (cfg : Config) (c : Cutout) : Prop :=
  (c.cx = -MAXq ∨
    (cfg.xMin ≤ c.cx ∧ c.cx ≤ cfg.xMax - (cfg.widthMin : ℚ) ∧ isInt c.cx)) ∧
  (c.cy = -MAXq ∨ (IntOrEq cfg.yMin c.cy ∧ cfg.yMin ≤ c.cy)) ∧
  (¬ c.cx = -MAXq → ¬ c.cy = -MAXq)

/-- Invariant of the combined NW corner across contours. -/
def CornNW (cfg : Config) (c : Cutout) : Prop :=
  (c.cx = MAXq ∨
    (cfg.xMin + (cfg.widthMin : ℚ) ≤ c.cx ∧ c.cx ≤ cfg.xMax ∧ isInt c.cx)) ∧
  (c.cy = -MAXq ∨ (IntOrEq cfg.yMin c.cy ∧ cfg.yMin ≤ c.cy)) ∧
  (¬ c.cx = MAXq → ¬ c.cy = -MAXq)

/-- The glyph-level invariant: direction signs of the four cutouts plus
the per-corner combined-value invariants. -/
def GlyphInv (cfg : Config) (g : Glyph) : Prop :=
  g.se.dx = -1 ∧ g.se.dy = 1 ∧ g.sw.dx = 1 ∧ g.sw.dy = 1 ∧
  g.ne.dx = -1 ∧ g.ne.dy = -1 ∧ g.nw.dx = 1 ∧ g.nw.dy = -1 ∧
  CornSE cfg g.se ∧ CornSW cfg g.sw ∧ CornNE cfg g.ne ∧ CornNW cfg g.nw

/-- Well-formedness of an emitted point list for the bbox corner
`(cornX, cornY)`: the first point (the inner corner) lies inside the
bounding box, the third point is exactly the bbox corner, and exactly
two of the four points carry the corner's x (resp. y) coordinate. -/
def rectOK (cfg : Config) (cornX cornY : ℚ) (pts : List (ℚ × ℚ)) : Prop :=
  (∃ ix iy, pts.head? = some (ix, iy) ∧
    cfg.xMin ≤ ix ∧ ix ≤ cfg.xMax ∧ cfg.yMin ≤ iy ∧ iy ≤ cfg.yMax) ∧
  pts.get? 2 = some (cornX, cornY) ∧
  (pts.filter fun p => decide (p.1 = cornX)).length = 2 ∧
  (pts.filter fun p => decide (p.2 = cornY)).length = 2

/-! ### Concrete instances used by counterexamples and witnesses -/

/-- em = 200, bbox (0,0)-(20,20): `widthMin = heightMin = 2`,
`shrinkMin = 3`. -/
def cfg200 : Config := Config.ofFont 200 0 20 0 20

/-- em = 1000, bbox (0,0)-(1000,1000): thresholds 10, `shrinkMin = 15`
(the configuration of the spec's minimum-size-rejection example). -/
def cfg1000 : Config := Config.ofFont 1000 0 1000 0 1000

/-- em = 100, bbox (0,0)-(6,6): `widthMin = heightMin = 1`,
`shrinkMin = 1`. -/
def cfg100 : Config := Config.ofFont 100 0 6 0 6

/-- em = 200, bbox (0, 1/2)-(20, 20): a bounding box with non-integer
`yMin`. -/
def cfgHalfY : Config := Config.ofFont 200 0 20 (1/2) 20

/-- em = 200, bbox (9980, 0)-(10020, 20): a glyph whose x coordinates
straddle the sentinel constant 10000. -/
def cfgHiX : Config := Config.ofFont 200 9980 10020 0 20

/-- A block occupying the west half of the (0,0)-(20,20) box at every
row: the east gap spans the full bbox height. -/
def ctHalf : Contour :=
  { clockwise := true
    xBoundsAtY := fun y => if 0 ≤ y ∧ y ≤ 20 then some (0, 10) else none }

/-- Rows 0-9 covered on (5,15), row 10 on (5,19) (stopping the SE scan
there), nothing above: the SW scan runs to the top. -/
def ctNotch : Contour :=
  { clockwise := true
    xBoundsAtY := fun y =>
      if 0 ≤ y ∧ y ≤ 9 then some (5, 15)
      else if y = 10 then some (5, 19) else none }

/-- Rows 0-9 covered on (5,15), row 10 on (1,19) (stopping both south
scans there), nothing above: all four corners produce rectangles. -/
def ctSym : Contour :=
  { clockwise := true
    xBoundsAtY := fun y =>
      if 0 ≤ y ∧ y ≤ 9 then some (5, 15)
      else if y = 10 then some (1, 19) else none }

/-- Rows 0-5 covered fully on (0,6), row 6 only on (2,3): the north pass
processes exactly one row (the top row, of height 0). -/
def ctTopRow : Contour :=
  { clockwise := true
    xBoundsAtY := fun y =>
      if 0 ≤ y ∧ y ≤ 5 then some (0, 6)
      else if y = 6 then some (2, 3) else none }

/-- The spec's minimum-size-rejection shape: a 15-wide gap at the SE
corner for rows 0-15, full coverage above. -/
def ctGap15 : Contour :=
  { clockwise := true
    xBoundsAtY := fun y =>
      if 0 ≤ y ∧ y ≤ 15 then some (0, 985)
      else if 16 ≤ y ∧ y ≤ 1000 then some (0, 1000) else none }

/-- A block on (9980,10000) at every row of `cfgHiX`: the genuine SE
candidate x is exactly 10000. -/
def ctHiX : Contour :=
  { clockwise := true
    xBoundsAtY := fun y => if 0 ≤ y ∧ y ≤ 20 then some (9980, 10000) else none }

/-- A mid-scan east accumulator state with `xm = 5`, used to exhibit the
binding monotonic clamp in `fit`. -/
def cutC5 : Cutout :=
  { dx := -1, dy := 1, cx := -MAXq, cy := MAXq
    x := 5, y := 3, xm := 5, area := 0, go := true }

/-- A combined SE corner with extent 301 x 500 in `cfg1000`, where the
5% shrink of the width (15.05) is not an integer. -/
def cutC7 : Cutout :=
  { dx := -1, dy := 1, cx := 699, cy := 500
    x := 0, y := 0, xm := 0, area := 0, go := true }

/-- A combined SE corner with extent 10 x 10 in `cfg1000`: not the unset
sentinel, but too small to survive the shrink. -/
def cutC10 : Cutout :=
  { dx := -1, dy := 1, cx := 990, cy := 10
    x := 0, y := 0, xm := 0, area := 0, go := true }

/-! ## Basic lemmas about `fit` -/

/-- A stopping `fit` call only clears the `go` flag (and possibly
performs the first-real-row area reset); the candidate and `xm` are
untouched. -/
lemma fit_stop_spec (cfg : Config) (count : ℤ) (c : Cutout) (x y : ℚ)
    (h : (Cutout.fit cfg count c x y).2 = true) :
    (Cutout.fit cfg count c x y).1
      = { (if count = 0 then { c with area := 0 } else c) with go := false } := by
  dsimp only [Cutout.fit] at h ⊢
  split_ifs at h ⊢ <;> simp_all

/-- A non-stopping `fit` call: the outermost coordinate is clamped, and
the best candidate is replaced exactly when the area at the clamped x is
at least the (possibly reset) best area so far. -/
lemma fit_cont_spec (cfg : Config) (count : ℤ) (c : Cutout) (x y : ℚ)
    (h : (Cutout.fit cfg count c x y).2 = false) :
    (Cutout.fit cfg count c x y).1 =
      (let a0 : ℚ := if count = 0 then 0 else c.area
       let xc : ℚ := if c.dx = -1 then max (⌈x⌉ : ℚ) c.xm else min (⌊x⌋ : ℚ) c.xm
       let wh := Cutout.extent cfg c xc y
       if a0 ≤ wh.1 * wh.2 then
         { c with x := xc, y := y, xm := xc, area := wh.1 * wh.2 }
       else
         { c with xm := xc, area := a0 }) := by
  dsimp only [Cutout.fit, Cutout.extent] at h ⊢
  split_ifs at h ⊢ <;> simp_all

/-- `fit` never touches the direction signs nor the combined corner. -/
lemma fit_frame (cfg : Config) (count : ℤ) (c : Cutout) (x y : ℚ) :
    (Cutout.fit cfg count c x y).1.dx = c.dx ∧
    (Cutout.fit cfg count c x y).1.dy = c.dy ∧
    (Cutout.fit cfg count c x y).1.cx = c.cx ∧
    (Cutout.fit cfg count c x y).1.cy = c.cy := by
  dsimp only [Cutout.fit]
  split_ifs <;> simp_all

/-- A non-stopping `fit` call keeps the `go` flag. -/
lemma fit_cont_go (cfg : Config) (count : ℤ) (c : Cutout) (x y : ℚ)
    (h : (Cutout.fit cfg count c x y).2 = false) :
    (Cutout.fit cfg count c x y).1.go = c.go := by
  dsimp only [Cutout.fit] at h ⊢
  split_ifs at h ⊢ <;> simp_all

/-! ## C5 -/

/-- C5 is refuted: in a non-stopping `fit` call whose monotonic clamp is
binding, the area compared against the best so far is measured from the
clamped x, not from the rounded x before the clamp (rounded x = 3,
`xm = 5`, so the code compares (20-5)*4 = 60, while the claim predicts
(20-3)*4 = 68). -/
theorem c5_counterexample :
    (Cutout.fit cfg200 1 cutC5 (23/10) 4).2 = false ∧
    (Cutout.fit cfg200 1 cutC5 (23/10) 4).1.area ≠
      (cfg200.xMax - (⌈(23/10 : ℚ)⌉ : ℚ)) * ((4 : ℚ) - cfg200.yMin) := by
  constructor <;> decide

/-- C5 (amended): in every `fit` call that does not stop, the x is
rounded (ceiling for east corners, floor for west) and then clamped by
the running outermost value `xm`; the area compared against the best so
far equals w*h measured by `extent` at the clamped x, and when it is at
least the best so far the best candidate is replaced with the clamped x
and the current row (so ties favor the later row). -/
theorem c5_fit_area_clamped (cfg : Config) (count : ℤ) (c : Cutout) (x y : ℚ)
    (h : (Cutout.fit cfg count c x y).2 = false) :
    (Cutout.fit cfg count c x y).1 =
      (let a0 : ℚ := if count = 0 then 0 else c.area
       let xc : ℚ := if c.dx = -1 then max (⌈x⌉ : ℚ) c.xm else min (⌊x⌋ : ℚ) c.xm
       let wh := Cutout.extent cfg c xc y
       if a0 ≤ wh.1 * wh.2 then
         { c with x := xc, y := y, xm := xc, area := wh.1 * wh.2 }
       else
         { c with xm := xc, area := a0 }) :=
  fit_cont_spec cfg count c x y h

/-- Witness for C5: the amended statement evaluated on the concrete
binding-clamp call. -/
theorem c5_witness :
    (Cutout.fit cfg200 1 cutC5 (23/10) 4).1 =
      (let a0 : ℚ := if (1 : ℤ) = 0 then 0 else cutC5.area
       let xc : ℚ := if cutC5.dx = -1 then max (⌈(23/10 : ℚ)⌉ : ℚ) cutC5.xm
         else min (⌊(23/10 : ℚ)⌋ : ℚ) cutC5.xm
       let wh := Cutout.extent cfg200 cutC5 xc 4
       if a0 ≤ wh.1 * wh.2 then
         { cutC5 with x := xc, y := 4, xm := xc, area := wh.1 * wh.2 }
       else
         { cutC5 with xm := xc, area := a0 }) :=
  c5_fit_area_clamped cfg200 1 cutC5 (23/10) 4 (by decide)

/-! ## C7 -/

/-- C7 is refuted: the shrink amount is not `max(5% of the extent, 1.5%
of the em size)` but its integer truncation; with extent 301 the code
shrinks by 15, not 15.05, so the accepted inner corner is 714 rather
than 714.05. -/
theorem c7_counterexample :
    (Cutout.finish cfg1000 cutC7).2 = true ∧
    (Cutout.finish cfg1000 cutC7).1.x ≠
      cutC7.cx - (max ((Cutout.extent cfg1000 cutC7 cutC7.cx cutC7.cy).1 * (5 / 100))
          ((1000 : ℚ) * (15 / 1000))) * (cutC7.dx : ℚ) := by
  constructor <;> decide

/-- C7 (amended): the shrink amount on each axis is
`max(int(5% of that axis's extent), int(1.5% of the em size))` (both
truncated to integers as Python's `int()` does); the inner corner is the
combined corner moved toward the bbox corner by that amount; the
rectangle is accepted iff the combined x is not at the sentinel and both
post-shrink extents are at least `int(1% of the em size)`; and in the
spec's 15x15 example the post-shrink rectangle is reported absent. -/
theorem c7_finish_shrink (em x0 x1 y0 y1 : ℚ) (c : Cutout) :
    ((Cutout.finish (Config.ofFont em x0 x1 y0 y1) c).2 = true ↔
      (¬ |c.cx| = MAXq ∧
        ((pyInt (em * (1 / 100)) : ℤ) : ℚ) ≤
          (Cutout.extent (Config.ofFont em x0 x1 y0 y1) c c.cx c.cy).1 -
          ((max (pyInt ((Cutout.extent (Config.ofFont em x0 x1 y0 y1) c c.cx c.cy).1 * (5 / 100)))
              (pyInt (em * (15 / 1000))) : ℤ) : ℚ) ∧
        ((pyInt (em * (1 / 100)) : ℤ) : ℚ) ≤
          (Cutout.extent (Config.ofFont em x0 x1 y0 y1) c c.cx c.cy).2 -
          ((max (pyInt ((Cutout.extent (Config.ofFont em x0 x1 y0 y1) c c.cx c.cy).2 * (5 / 100)))
              (pyInt (em * (15 / 1000))) : ℤ) : ℚ))) ∧
    (Cutout.finish (Config.ofFont em x0 x1 y0 y1) c).1.x =
      (if |c.cx| = MAXq then c.x else
        c.cx - ((max (pyInt ((Cutout.extent (Config.ofFont em x0 x1 y0 y1) c c.cx c.cy).1 * (5 / 100)))
            (pyInt (em * (15 / 1000))) : ℤ) : ℚ) * (c.dx : ℚ)) ∧
    (Cutout.finish (Config.ofFont em x0 x1 y0 y1) c).1.y =
      (if |c.cx| = MAXq then c.y else
        c.cy - ((max (pyInt ((Cutout.extent (Config.ofFont em x0 x1 y0 y1) c c.cx c.cy).2 * (5 / 100)))
            (pyInt (em * (15 / 1000))) : ℤ) : ℚ) * (c.dy : ℚ)) ∧
    emitSE cfg1000 (scanGlyph cfg1000 [ctGap15]).se = none := by
  refine ⟨?_, ?_, ?_, by decide⟩ <;>
    · dsimp only [Cutout.finish, Config.ofFont, MAXq]
      split_ifs <;> simp_all [and_assoc]

/-! ## C10 -/

/-- C10 is refuted: `finish` also reports a corner absent when the
post-shrink rectangle is too small, with a combined x far from the
sentinel constant, so "absent exactly when |cx| = 10000" fails. -/
theorem c10_counterexample :
    (Cutout.finish cfg1000 cutC10).2 = false ∧ ¬ |cutC10.cx| = MAXq := by
  constructor <;> decide

/-- C10 (amended): `finish` reports a corner absent whenever
`|cx| = 10000` (among other reasons, such as a too-small post-shrink
rectangle); consequently a genuine combined corner whose x is exactly
10000 — as produced by the glyph `ctHiX` in the box `cfgHiX`, whose SE
candidate was truly merged (best row 20, positive area) — is reported
absent. -/
theorem c10_sentinel_unsound (cfg : Config) (c : Cutout) (h : |c.cx| = MAXq) :
    (Cutout.finish cfg c).2 = false ∧
    (scanGlyph cfgHiX [ctHiX]).se.cx = MAXq ∧
    (scanGlyph cfgHiX [ctHiX]).se.y = 20 ∧
    (scanGlyph cfgHiX [ctHiX]).se.area ≠ 0 ∧
    emitSE cfgHiX (scanGlyph cfgHiX [ctHiX]).se = none := by
  refine ⟨?_, by decide, by decide, by decide, by decide⟩
  dsimp only [Cutout.finish, MAXq] at h ⊢
  simp [h]

/-- Witness for C10: the amended statement applied to the freshly
constructed SE cutout, whose combined x is the unset sentinel. -/
theorem c10_witness :
    (Cutout.finish cfg1000 (Cutout.init (-1) 1)).2 = false :=
  (c10_sentinel_unsound cfg1000 (Cutout.init (-1) 1) (by decide)).1

/-! ## C4 -/

/-- A stopping `fit` call leaves the best area at its (possibly reset)
previous value. -/
lemma fit_stop_area (cfg : Config) (count : ℤ) (c : Cutout) (x y : ℚ)
    (h : (Cutout.fit cfg count c x y).2 = true) :
    (Cutout.fit cfg count c x y).1.area = if count = 0 then 0 else c.area := by
  rw [fit_stop_spec cfg count c x y h]
  split_ifs <;> rfl

/-- The guarded-fit pattern of the north pass preserves "no processed
rows implies zero best area". -/
lemma feedFit_area_zero (cfg : Config) (count : ℤ) (c : Cutout) (x y : ℚ)
    (feed : Bool) (p : ℕ) (h0 : p = 0 → c.area = 0)
    (hp : (if feed && !(if feed then Cutout.fit cfg count c x y else (c, false)).2
            then p + 1 else p) = 0) :
    (if feed then Cutout.fit cfg count c x y else (c, false)).1.area = 0 := by
  cases feed with
  | false => simpa using h0 (by simpa using hp)
  | true =>
    simp only [if_true, Bool.true_and] at hp ⊢
    rcases hstop : (Cutout.fit cfg count c x y).2 with _ | _
    · rw [hstop] at hp
      simp at hp
    · rw [fit_stop_area cfg count c x y hstop]
      rw [hstop] at hp
      simp only [Bool.not_true, if_false] at hp
      split_ifs with hcnt
      · rfl
      · exact h0 hp

/-- One north step preserves "no processed rows implies zero best area"
for both north accumulators. -/
lemma northStep_area_zero (cfg : Config) (c : Contour) (yE yW : ℤ) (st : NState) (y : ℤ)
    (h1 : st.neProc = 0 → st.ne.area = 0) (h2 : st.nwProc = 0 → st.nw.area = 0) :
    ((northStep cfg c yE yW st y).1.neProc = 0 →
      (northStep cfg c yE yW st y).1.ne.area = 0) ∧
    ((northStep cfg c yE yW st y).1.nwProc = 0 →
      (northStep cfg c yE yW st y).1.nw.area = 0) := by
  dsimp only [northStep]
  exact ⟨fun hp => feedFit_area_zero _ _ _ _ _ _ _ h1 hp,
         fun hp => feedFit_area_zero _ _ _ _ _ _ _ h2 hp⟩

/-- The north loop preserves "no processed rows implies zero best
area". -/
lemma northLoop_area_zero (cfg : Config) (c : Contour) (yE yW : ℤ) :
    ∀ (fuel : ℕ) (y : ℤ) (st : NState),
    (st.neProc = 0 → st.ne.area = 0) → (st.nwProc = 0 → st.nw.area = 0) →
    ((northLoop cfg c yE yW fuel y st).neProc = 0 →
      (northLoop cfg c yE yW fuel y st).ne.area = 0) ∧
    ((northLoop cfg c yE yW fuel y st).nwProc = 0 →
      (northLoop cfg c yE yW fuel y st).nw.area = 0) := by
  intro fuel
  induction fuel with
  | zero => intro y st h1 h2; exact ⟨h1, h2⟩
  | succ n ih =>
    intro y st h1 h2
    have step := northStep_area_zero cfg c yE yW st y h1 h2
    rw [northLoop]
    by_cases hc : (northStep cfg c yE yW st y).2 = true
    · simp only [hc, if_true]
      exact ih _ _ step.1 step.2
    · simp only [hc, if_false]
      exact step

/-- C4 is refuted: the fallback substitution is gated on the candidate's
best area being zero, not on its processed-row count: in `ctTopRow` the
NE accumulator processes exactly one row (the zero-height top row), yet
the combiner substitutes the SE corner's x (the sentinel -10000) instead
of merging the processed candidate x = 3 unchanged. -/
theorem c4_counterexample :
    (scanContour cfg100 ctTopRow).neProc = 1 ∧
    (scanContour cfg100 ctTopRow).ne.x = 3 ∧
    (scanGlyph cfg100 [ctTopRow]).ne.cx
      ≠ max Glyph.start.ne.cx (scanContour cfg100 ctTopRow).ne.x := by
  refine ⟨by decide, by decide, by decide⟩

/-- C4 (amended): the north-corner fallback is gated on the candidate's
best area: a candidate with zero processed rows always has zero best
area and is then substituted by the matching south corner's x and the
bbox's minimum y; candidates with nonzero best area are merged
unchanged; but a processed candidate whose best area is zero (a
zero-height row) is also substituted. -/
theorem c4_area_gated_fallback (cfg : Config) (g : Glyph) (c : Contour)
    (hcw : c.clockwise = true) :
    ((scanContour cfg c).neProc = 0 → (scanContour cfg c).ne.area = 0) ∧
    ((scanContour cfg c).nwProc = 0 → (scanContour cfg c).nw.area = 0) ∧
    (scanOne cfg g c).ne.cx
        = max g.ne.cx (if (scanContour cfg c).ne.area = 0 then (scanContour cfg c).se.x
            else (scanContour cfg c).ne.x) ∧
    (scanOne cfg g c).ne.cy
        = max g.ne.cy (if (scanContour cfg c).ne.area = 0 then cfg.yMin
            else (scanContour cfg c).ne.y) ∧
    (scanOne cfg g c).nw.cx
        = min g.nw.cx (if (scanContour cfg c).nw.area = 0 then (scanContour cfg c).sw.x
            else (scanContour cfg c).nw.x) ∧
    (scanOne cfg g c).nw.cy
        = max g.nw.cy (if (scanContour cfg c).nw.area = 0 then cfg.yMin
            else (scanContour cfg c).nw.y) := by
  refine ⟨?_, ?_, ?_, ?_, ?_, ?_⟩
  · dsimp only [scanContour]
    exact fun hp => ((northLoop_area_zero cfg c _ _ _ _ _ (fun _ => rfl) (fun _ => rfl)).1) hp
  · dsimp only [scanContour]
    exact fun hp => ((northLoop_area_zero cfg c _ _ _ _ _ (fun _ => rfl) (fun _ => rfl)).2) hp
  all_goals simp only [scanOne, hcw, if_true, combine]

/-- Witness for C4: the amended combine equation evaluated on the
one-processed-row contour. -/
theorem c4_witness :
    (scanOne cfg100 Glyph.start ctTopRow).ne.cx
      = max Glyph.start.ne.cx
          (if (scanContour cfg100 ctTopRow).ne.area = 0 then (scanContour cfg100 ctTopRow).se.x
            else (scanContour cfg100 ctTopRow).ne.x) :=
  (c4_area_gated_fallback cfg100 Glyph.start ctTopRow rfl).2.2.1

/-! ## C1 -/

/-- Appending the current (strictly smaller) row keeps a row log
strictly decreasing. -/
lemma chain_append_lt (l : List ℤ) (y : ℤ) (h : ∀ t ∈ l, y < t)
    (hc : l.Chain' (fun a b => b < a)) : (l ++ [y]).Chain' (fun a b => b < a) := by
  rw [List.chain'_append]
  refine ⟨hc, List.chain'_singleton y, ?_⟩
  intro x hx t ht
  simp only [List.head?, Option.mem_def, Option.some.injEq] at ht
  subst ht
  obtain ⟨hne, rfl⟩ := List.mem_getLast?_eq_getLast hx
  exact h _ (List.getLast_mem hne)

/-- One north step: each ghost row log either stays or gets the current
row appended, and in the latter case the row is above the matching south
stopping row. -/
lemma northStep_rows (cfg : Config) (c : Contour) (yE yW : ℤ) (st : NState) (y : ℤ) :
    ((northStep cfg c yE yW st y).1.neRows = st.neRows ∨
      ((northStep cfg c yE yW st y).1.neRows = st.neRows ++ [y] ∧ yE < y)) ∧
    ((northStep cfg c yE yW st y).1.nwRows = st.nwRows ∨
      ((northStep cfg c yE yW st y).1.nwRows = st.nwRows ++ [y] ∧ yW < y)) := by
  dsimp only [northStep]
  constructor
  · by_cases hg : st.ne.go <;> by_cases hy : yE < y <;> simp [hg, hy]
  · by_cases hg : st.nw.go <;> by_cases hy : yW < y <;> simp [hg, hy]

/-- The north loop only records rows above the matching south stopping
row and at most the starting row, in strictly decreasing order. -/
lemma northLoop_rows (cfg : Config) (c : Contour) (yE yW hi : ℤ) :
    ∀ (fuel : ℕ) (y : ℤ) (st : NState),
    y ≤ hi →
    (∀ t ∈ st.neRows, yE < t ∧ y < t ∧ t ≤ hi) →
    (∀ t ∈ st.nwRows, yW < t ∧ y < t ∧ t ≤ hi) →
    st.neRows.Chain' (fun a b => b < a) →
    st.nwRows.Chain' (fun a b => b < a) →
    (∀ t ∈ (northLoop cfg c yE yW fuel y st).neRows, yE < t ∧ t ≤ hi) ∧
    (∀ t ∈ (northLoop cfg c yE yW fuel y st).nwRows, yW < t ∧ t ≤ hi) ∧
    (northLoop cfg c yE yW fuel y st).neRows.Chain' (fun a b => b < a) ∧
    (northLoop cfg c yE yW fuel y st).nwRows.Chain' (fun a b => b < a) := by
  intro fuel
  induction fuel with
  | zero =>
    intro y st _ hne hnw hce hcw
    exact ⟨fun t ht => ⟨(hne t ht).1, (hne t ht).2.2⟩,
           fun t ht => ⟨(hnw t ht).1, (hnw t ht).2.2⟩, hce, hcw⟩
  | succ n ih =>
    intro y st hyhi hne hnw hce hcw
    have hrows := northStep_rows cfg c yE yW st y
    set st' := (northStep cfg c yE yW st y).1 with hst'
    have hne' : ∀ t ∈ st'.neRows, yE < t ∧ y - 1 < t ∧ t ≤ hi := by
      rcases hrows.1 with h | ⟨h, hy⟩ <;> rw [h] <;> intro t ht
      · exact ⟨(hne t ht).1, by have := (hne t ht).2.1; omega, (hne t ht).2.2⟩
      · rcases List.mem_append.1 ht with ht | ht
        · exact ⟨(hne t ht).1, by have := (hne t ht).2.1; omega, (hne t ht).2.2⟩
        · simp only [List.mem_singleton] at ht
          subst ht
          exact ⟨hy, by omega, hyhi⟩
    have hnw' : ∀ t ∈ st'.nwRows, yW < t ∧ y - 1 < t ∧ t ≤ hi := by
      rcases hrows.2 with h | ⟨h, hy⟩ <;> rw [h] <;> intro t ht
      · exact ⟨(hnw t ht).1, by have := (hnw t ht).2.1; omega, (hnw t ht).2.2⟩
      · rcases List.mem_append.1 ht with ht | ht
        · exact ⟨(hnw t ht).1, by have := (hnw t ht).2.1; omega, (hnw t ht).2.2⟩
        · simp only [List.mem_singleton] at ht
          subst ht
          exact ⟨hy, by omega, hyhi⟩
    have hce' : st'.neRows.Chain' (fun a b => b < a) := by
      rcases hrows.1 with h | ⟨h, _⟩ <;> rw [h]
      · exact hce
      · exact chain_append_lt _ _ (fun t ht => (hne t ht).2.1) hce
    have hcw' : st'.nwRows.Chain' (fun a b => b < a) := by
      rcases hrows.2 with h | ⟨h, _⟩ <;> rw [h]
      · exact hcw
      · exact chain_append_lt _ _ (fun t ht => (hnw t ht).2.1) hcw
    rw [northLoop]
    by_cases hc : (northStep cfg c yE yW st y).2 = true
    · simp only [hc, if_true]
      exact ih (y - 1) st' (by omega) hne' hnw' hce' hcw'
    · simp only [hc, if_false]
      exact ⟨fun t ht => ⟨(hne' t ht).1, (hne' t ht).2.2⟩,
             fun t ht => ⟨(hnw' t ht).1, (hnw' t ht).2.2⟩, hce', hcw'⟩

/-- The ghost row logs of a full north pass started from the fresh
accumulators: bounds and strict descent. -/
lemma northLoop_rows_final (cfg : Config) (c : Contour) (yE yW : ℤ) :
    (∀ t ∈ (northLoop cfg c yE yW (pyInt cfg.yMax - min yE yW).toNat (pyInt cfg.yMax)
        { ne := (Cutout.init (-1) (-1)).reset, nw := (Cutout.init 1 (-1)).reset
          count := -1, neRows := [], nwRows := [], neProc := 0, nwProc := 0 }).neRows,
        yE < t ∧ t ≤ pyInt cfg.yMax) ∧
    (∀ t ∈ (northLoop cfg c yE yW (pyInt cfg.yMax - min yE yW).toNat (pyInt cfg.yMax)
        { ne := (Cutout.init (-1) (-1)).reset, nw := (Cutout.init 1 (-1)).reset
          count := -1, neRows := [], nwRows := [], neProc := 0, nwProc := 0 }).nwRows,
        yW < t ∧ t ≤ pyInt cfg.yMax) ∧
    (northLoop cfg c yE yW (pyInt cfg.yMax - min yE yW).toNat (pyInt cfg.yMax)
        { ne := (Cutout.init (-1) (-1)).reset, nw := (Cutout.init 1 (-1)).reset
          count := -1, neRows := [], nwRows := [], neProc := 0, nwProc := 0 }).neRows.Chain'
      (fun a b => b < a) ∧
    (northLoop cfg c yE yW (pyInt cfg.yMax - min yE yW).toNat (pyInt cfg.yMax)
        { ne := (Cutout.init (-1) (-1)).reset, nw := (Cutout.init 1 (-1)).reset
          count := -1, neRows := [], nwRows := [], neProc := 0, nwProc := 0 }).nwRows.Chain'
      (fun a b => b < a) :=
  northLoop_rows cfg c yE yW (pyInt cfg.yMax)
    ((pyInt cfg.yMax - min yE yW).toNat) (pyInt cfg.yMax)
    { ne := (Cutout.init (-1) (-1)).reset, nw := (Cutout.init 1 (-1)).reset
      count := -1, neRows := [], nwRows := [], neProc := 0, nwProc := 0 } le_rfl
    (by intro t ht; exact absurd ht (List.not_mem_nil t))
    (by intro t ht; exact absurd ht (List.not_mem_nil t))
    List.chain'_nil List.chain'_nil

/-- C1 is refuted: for `ctNotch` the SE scan stops at row 10 and the SW
scan never stops (so its recorded stopping row is the top row 20, and
the claimed combined floor max(10,20) = 20); yet the north pass feeds NE
at rows 19..11, all at or below that claimed floor — it only stops at
the min of the two stopping rows. -/
theorem c1_counterexample :
    ¬ ((∀ t ∈ (scanContour cfg200 ctNotch).neRows, (scanContour cfg200 ctNotch).yMinE < t) ∧
       (∀ t ∈ (scanContour cfg200 ctNotch).nwRows, (scanContour cfg200 ctNotch).yMinW < t) ∧
       (∀ t ∈ (scanContour cfg200 ctNotch).neRows ++ (scanContour cfg200 ctNotch).nwRows,
          max (scanContour cfg200 ctNotch).yMinE (scanContour cfg200 ctNotch).yMinW < t)) := by
  decide

/-- C1 (amended): the north pass visits rows from the bbox's maximum y
downward, feeds each north accumulator only at rows strictly above its
matching south accumulator's stopping row, and ends when both north
accumulators are inactive or the combined floor — the MIN of the two
south stopping rows — is reached; every fed row is therefore strictly
above that min and at most `int(yMax)`, in strictly decreasing order. -/
theorem c1_north_pass_rows (cfg : Config) (c : Contour) :
    (∀ t ∈ (scanContour cfg c).neRows,
        (scanContour cfg c).yMinE < t ∧ t ≤ pyInt cfg.yMax) ∧
    (∀ t ∈ (scanContour cfg c).nwRows,
        (scanContour cfg c).yMinW < t ∧ t ≤ pyInt cfg.yMax) ∧
    (∀ t ∈ (scanContour cfg c).neRows ++ (scanContour cfg c).nwRows,
        min (scanContour cfg c).yMinE (scanContour cfg c).yMinW < t) ∧
    (scanContour cfg c).neRows.Chain' (fun a b => b < a) ∧
    (scanContour cfg c).nwRows.Chain' (fun a b => b < a) := by
  dsimp only [scanContour]
  refine ⟨(northLoop_rows_final cfg c _ _).1, (northLoop_rows_final cfg c _ _).2.1, ?_,
    (northLoop_rows_final cfg c _ _).2.2.1, (northLoop_rows_final cfg c _ _).2.2.2⟩
  intro t ht
  rcases List.mem_append.1 ht with ht | ht
  · exact lt_of_le_of_lt (min_le_left _ _) ((northLoop_rows_final cfg c _ _).1 t ht).1
  · exact lt_of_le_of_lt (min_le_right _ _) ((northLoop_rows_final cfg c _ _).2.1 t ht).1

/-- Witness for C1: the bounds applied to the fed row 15 of the
`ctNotch` scan. -/
theorem c1_witness :
    (scanContour cfg200 ctNotch).yMinE < 15 ∧ (15 : ℤ) ≤ pyInt cfg200.yMax :=
  (c1_north_pass_rows cfg200 ctNotch).1 15 (by decide)

/-! ## C6 -/

/-- The combined corners of a glyph fold over the per-contour candidates
with max/min, starting from the given glyph state.  The NE/NW candidate
of a contour is the area-gated fallback value. -/
lemma scanFold_cx_cy (cfg : Config) : ∀ (cs : List Contour) (g : Glyph),
    (cs.foldl (scanOne cfg) g).se.cx
      = ((cs.filter fun c => c.clockwise).map fun c =>
          (scanContour cfg c).se.x).foldl max g.se.cx ∧
    (cs.foldl (scanOne cfg) g).se.cy
      = ((cs.filter fun c => c.clockwise).map fun c =>
          (scanContour cfg c).se.y).foldl min g.se.cy ∧
    (cs.foldl (scanOne cfg) g).sw.cx
      = ((cs.filter fun c => c.clockwise).map fun c =>
          (scanContour cfg c).sw.x).foldl min g.sw.cx ∧
    (cs.foldl (scanOne cfg) g).sw.cy
      = ((cs.filter fun c => c.clockwise).map fun c =>
          (scanContour cfg c).sw.y).foldl min g.sw.cy ∧
    (cs.foldl (scanOne cfg) g).ne.cx
      = ((cs.filter fun c => c.clockwise).map fun c =>
          if (scanContour cfg c).ne.area = 0 then (scanContour cfg c).se.x
          else (scanContour cfg c).ne.x).foldl max g.ne.cx ∧
    (cs.foldl (scanOne cfg) g).ne.cy
      = ((cs.filter fun c => c.clockwise).map fun c =>
          if (scanContour cfg c).ne.area = 0 then cfg.yMin
          else (scanContour cfg c).ne.y).foldl max g.ne.cy ∧
    (cs.foldl (scanOne cfg) g).nw.cx
      = ((cs.filter fun c => c.clockwise).map fun c =>
          if (scanContour cfg c).nw.area = 0 then (scanContour cfg c).sw.x
          else (scanContour cfg c).nw.x).foldl min g.nw.cx ∧
    (cs.foldl (scanOne cfg) g).nw.cy
      = ((cs.filter fun c => c.clockwise).map fun c =>
          if (scanContour cfg c).nw.area = 0 then cfg.yMin
          else (scanContour cfg c).nw.y).foldl max g.nw.cy := by
  intro cs
  induction cs with
  | nil => intro g; exact ⟨rfl, rfl, rfl, rfl, rfl, rfl, rfl, rfl⟩
  | cons c cs ih =>
    intro g
    by_cases hcw : c.clockwise
    · simpa [scanOne, hcw, combine, List.filter_cons] using ih (scanOne cfg g c)
    · simpa [scanOne, hcw, List.filter_cons] using ih g

/-- C6: for each corner, the glyph-level combined coordinate equals the
fold of the most-restrictive operation (max x for east corners, min x
for west, min y for south, max y for north) over all qualifying
contours' candidates, started at the sentinel initial value — never a
union or average; since the merge is a pure max/min fold, merging a more
restrictive candidate after a less restrictive one yields the more
restrictive one. -/
theorem c6_most_restrictive_merge (cfg : Config) (cs : List Contour) :
    (scanGlyph cfg cs).se.cx
      = ((cs.filter fun c => c.clockwise).map fun c =>
          (scanContour cfg c).se.x).foldl max Glyph.start.se.cx ∧
    (scanGlyph cfg cs).se.cy
      = ((cs.filter fun c => c.clockwise).map fun c =>
          (scanContour cfg c).se.y).foldl min Glyph.start.se.cy ∧
    (scanGlyph cfg cs).sw.cx
      = ((cs.filter fun c => c.clockwise).map fun c =>
          (scanContour cfg c).sw.x).foldl min Glyph.start.sw.cx ∧
    (scanGlyph cfg cs).sw.cy
      = ((cs.filter fun c => c.clockwise).map fun c =>
          (scanContour cfg c).sw.y).foldl min Glyph.start.sw.cy ∧
    (scanGlyph cfg cs).ne.cx
      = ((cs.filter fun c => c.clockwise).map fun c =>
          if (scanContour cfg c).ne.area = 0 then (scanContour cfg c).se.x
          else (scanContour cfg c).ne.x).foldl max Glyph.start.ne.cx ∧
    (scanGlyph cfg cs).ne.cy
      = ((cs.filter fun c => c.clockwise).map fun c =>
          if (scanContour cfg c).ne.area = 0 then cfg.yMin
          else (scanContour cfg c).ne.y).foldl max Glyph.start.ne.cy ∧
    (scanGlyph cfg cs).nw.cx
      = ((cs.filter fun c => c.clockwise).map fun c =>
          if (scanContour cfg c).nw.area = 0 then (scanContour cfg c).sw.x
          else (scanContour cfg c).nw.x).foldl min Glyph.start.nw.cx ∧
    (scanGlyph cfg cs).nw.cy
      = ((cs.filter fun c => c.clockwise).map fun c =>
          if (scanContour cfg c).nw.area = 0 then cfg.yMin
          else (scanContour cfg c).nw.y).foldl max Glyph.start.nw.cy :=
  scanFold_cx_cy cfg cs Glyph.start

/-! ## C9 -/

/-- The guarded-fit pattern never moves `xm` outward for an east
accumulator. -/
lemma feedFit_xm_east (cfg : Config) (count : ℤ) (c : Cutout) (x y : ℚ) (feed : Bool)
    (hdx : c.dx = -1) :
    c.xm ≤ (if feed then Cutout.fit cfg count c x y else (c, false)).1.xm := by
  cases feed with
  | false => simp
  | true =>
    simp only [if_true]
    rcases hstop : (Cutout.fit cfg count c x y).2 with _ | _
    · rw [fit_cont_spec cfg count c x y hstop]
      dsimp only
      rw [hdx]
      split_ifs <;> simp_all
    · rw [fit_stop_spec cfg count c x y hstop]
      split_ifs <;> exact le_rfl

/-- The guarded-fit pattern never moves `xm` outward for a west
accumulator. -/
lemma feedFit_xm_west (cfg : Config) (count : ℤ) (c : Cutout) (x y : ℚ) (feed : Bool)
    (hdx : c.dx = 1) :
    (if feed then Cutout.fit cfg count c x y else (c, false)).1.xm ≤ c.xm := by
  cases feed with
  | false => simp
  | true =>
    simp only [if_true]
    rcases hstop : (Cutout.fit cfg count c x y).2 with _ | _
    · rw [fit_cont_spec cfg count c x y hstop]
      dsimp only
      rw [hdx]
      have : ¬ ((1 : ℤ) = -1) := by decide
      split_ifs <;> simp_all
    · rw [fit_stop_spec cfg count c x y hstop]
      split_ifs <;> exact le_rfl

/-- The guarded-fit pattern preserves the direction sign. -/
lemma feedFit_dx (cfg : Config) (count : ℤ) (c : Cutout) (x y : ℚ) (feed : Bool) :
    (if feed then Cutout.fit cfg count c x y else (c, false)).1.dx = c.dx := by
  cases feed with
  | false => rfl
  | true => exact (fit_frame cfg count c x y).1

/-- The south loop: the SE outermost coordinate never decreases, the SW
one never increases. -/
lemma southLoop_xm (cfg : Config) (c : Contour) :
    ∀ (fuel : ℕ) (y : ℤ) (st : SState), st.se.dx = -1 → st.sw.dx = 1 →
    st.se.xm ≤ (southLoop cfg c fuel y st).se.xm ∧
    (southLoop cfg c fuel y st).sw.xm ≤ st.sw.xm := by
  intro fuel
  induction fuel with
  | zero => intro y st _ _; exact ⟨le_rfl, le_rfl⟩
  | succ n ih =>
    intro y st hse hsw
    have hsteE : st.se.xm ≤ (southStep cfg c st y).1.se.xm := by
      dsimp only [southStep]
      exact feedFit_xm_east _ _ _ _ _ _ hse
    have hsteW : (southStep cfg c st y).1.sw.xm ≤ st.sw.xm := by
      dsimp only [southStep]
      exact feedFit_xm_west _ _ _ _ _ _ hsw
    have hdxE : (southStep cfg c st y).1.se.dx = -1 := by
      dsimp only [southStep]
      rw [feedFit_dx]
      exact hse
    have hdxW : (southStep cfg c st y).1.sw.dx = 1 := by
      dsimp only [southStep]
      rw [feedFit_dx]
      exact hsw
    rw [southLoop]
    by_cases hc : (southStep cfg c st y).2 = true
    · simp only [hc, if_true]
      have := ih (y + 1) (southStep cfg c st y).1 hdxE hdxW
      exact ⟨le_trans hsteE this.1, le_trans this.2 hsteW⟩
    · simp only [hc, if_false]
      exact ⟨hsteE, hsteW⟩

/-- The north loop: the NE outermost coordinate never decreases, the NW
one never increases. -/
lemma northLoop_xm (cfg : Config) (c : Contour) (yE yW : ℤ) :
    ∀ (fuel : ℕ) (y : ℤ) (st : NState), st.ne.dx = -1 → st.nw.dx = 1 →
    st.ne.xm ≤ (northLoop cfg c yE yW fuel y st).ne.xm ∧
    (northLoop cfg c yE yW fuel y st).nw.xm ≤ st.nw.xm := by
  intro fuel
  induction fuel with
  | zero => intro y st _ _; exact ⟨le_rfl, le_rfl⟩
  | succ n ih =>
    intro y st hne hnw
    have hsteE : st.ne.xm ≤ (northStep cfg c yE yW st y).1.ne.xm := by
      dsimp only [northStep]
      exact feedFit_xm_east _ _ _ _ _ _ hne
    have hsteW : (northStep cfg c yE yW st y).1.nw.xm ≤ st.nw.xm := by
      dsimp only [northStep]
      exact feedFit_xm_west _ _ _ _ _ _ hnw
    have hdxE : (northStep cfg c yE yW st y).1.ne.dx = -1 := by
      dsimp only [northStep]
      rw [feedFit_dx]
      exact hne
    have hdxW : (northStep cfg c yE yW st y).1.nw.dx = 1 := by
      dsimp only [northStep]
      rw [feedFit_dx]
      exact hnw
    rw [northLoop]
    by_cases hc : (northStep cfg c yE yW st y).2 = true
    · simp only [hc, if_true]
      have := ih (y - 1) (northStep cfg c yE yW st y).1 hdxE hdxW
      exact ⟨le_trans hsteE this.1, le_trans this.2 hsteW⟩
    · simp only [hc, if_false]
      exact ⟨hsteE, hsteW⟩

/-- C9: within a single contour scan the running outermost coordinate
`xm` is monotone across consecutive non-stopped `fit` calls —
non-decreasing for east corners (the clamp takes `max(rounded x, xm)`),
non-increasing for west corners (`min`) — every recorded best x equals
the clamped value (or the previous best is kept unchanged), and the
monotonicity lifts to the whole south and north loops. -/
theorem c9_monotone_clamp (cfg : Config) :
    (∀ (count : ℤ) (c : Cutout) (x y : ℚ),
      (Cutout.fit cfg count c x y).2 = false →
      (c.dx = -1 → c.xm ≤ (Cutout.fit cfg count c x y).1.xm ∧
        (Cutout.fit cfg count c x y).1.xm = max (⌈x⌉ : ℚ) c.xm) ∧
      (c.dx = 1 → (Cutout.fit cfg count c x y).1.xm ≤ c.xm ∧
        (Cutout.fit cfg count c x y).1.xm = min (⌊x⌋ : ℚ) c.xm) ∧
      ((Cutout.fit cfg count c x y).1.x = (Cutout.fit cfg count c x y).1.xm ∨
        (Cutout.fit cfg count c x y).1.x = c.x)) ∧
    (∀ (c : Contour) (fuel : ℕ) (y : ℤ) (st : SState),
      st.se.dx = -1 → st.sw.dx = 1 →
      st.se.xm ≤ (southLoop cfg c fuel y st).se.xm ∧
      (southLoop cfg c fuel y st).sw.xm ≤ st.sw.xm) ∧
    (∀ (c : Contour) (yE yW : ℤ) (fuel : ℕ) (y : ℤ) (st : NState),
      st.ne.dx = -1 → st.nw.dx = 1 →
      st.ne.xm ≤ (northLoop cfg c yE yW fuel y st).ne.xm ∧
      (northLoop cfg c yE yW fuel y st).nw.xm ≤ st.nw.xm) := by
  refine ⟨?_, fun c => southLoop_xm cfg c, fun c yE yW => northLoop_xm cfg c yE yW⟩
  intro count c x y h
  rw [fit_cont_spec cfg count c x y h]
  dsimp only
  refine ⟨?_, ?_, ?_⟩
  · intro hdx
    rw [hdx]
    split_ifs <;> simp_all
  · intro hdx
    rw [hdx]
    have : ¬ ((1 : ℤ) = -1) := by decide
    split_ifs <;> simp_all
  · split_ifs <;> simp

/-- Witness for C9: the clamp facts at the concrete binding-clamp call,
and the loop-level monotonicity on the `ctNotch` scan. -/
theorem c9_witness :
    cutC5.xm ≤ (Cutout.fit cfg200 1 cutC5 (23/10) 4).1.xm ∧
    (Cutout.fit cfg200 1 cutC5 (23/10) 4).1.xm = max (⌈(23/10 : ℚ)⌉ : ℚ) cutC5.xm := by
  exact ((c9_monotone_clamp cfg200).1 1 cutC5 (23/10) 4 (by decide)).1 (by decide)

/-! ## Arithmetic helpers -/

/-- `pyInt` is strictly below `q + 1`. -/
lemma pyInt_lt_add_one (q : ℚ) : ((pyInt q : ℤ) : ℚ) < q + 1 := by
  unfold pyInt
  split_ifs with h
  · exact Int.ceil_lt_add_one q
  · exact lt_of_le_of_lt (Int.floor_le q) (by linarith)

/-- `pyInt` is strictly above `q - 1`. -/
lemma sub_one_lt_pyInt (q : ℚ) : q - 1 < ((pyInt q : ℤ) : ℚ) := by
  unfold pyInt
  split_ifs with h
  · exact lt_of_lt_of_le (by linarith) (Int.le_ceil q)
  · exact Int.sub_one_lt_floor q

/-- Below the sentinel, `pyInt` stays at or below `MAX`. -/
lemma pyInt_le_MAX {q : ℚ} (h : q < MAXq) : ((pyInt q : ℤ) : ℚ) ≤ MAXq := by
  have h1 := pyInt_lt_add_one q
  have h2 : ((pyInt q : ℤ) : ℚ) < ((MAX + 1 : ℤ) : ℚ) := by
    unfold MAXq at h
    push_cast
    push_cast at h
    linarith
  have h3 : pyInt q < MAX + 1 := by exact_mod_cast h2
  have h4 : pyInt q ≤ MAX := by omega
  unfold MAXq
  exact_mod_cast h4

/-- The maximum of two integral rationals is integral. -/
lemma isInt_max {a b : ℚ} (ha : isInt a) (hb : isInt b) : isInt (max a b) := by
  obtain ⟨n, rfl⟩ := ha
  obtain ⟨m, rfl⟩ := hb
  exact ⟨max n m, (Int.cast_max).symm⟩

/-- The minimum of two integral rationals is integral. -/
lemma isInt_min {a b : ℚ} (ha : isInt a) (hb : isInt b) : isInt (min a b) := by
  obtain ⟨n, rfl⟩ := ha
  obtain ⟨m, rfl⟩ := hb
  exact ⟨min n m, (Int.cast_min).symm⟩

/-- `EastGood` is monotone in the row predicate. -/
lemma EastGood.monoRho {cfg : Config} {ρ ρ' : ℤ → Prop} {c : Cutout}
    (h : ∀ r, ρ r → ρ' r) (hg : EastGood cfg ρ c) : EastGood cfg ρ' c := by
  obtain ⟨h1, h2, h3⟩ := hg
  refine ⟨h1, h2, ?_⟩
  rcases h3 with hs | ⟨g1, g2, g3, r, g4, g5⟩
  · exact Or.inl hs
  · exact Or.inr ⟨g1, g2, g3, r, g4, h r g5⟩

/-- `WestGood` is monotone in the row predicate. -/
lemma WestGood.monoPred {cfg : Config} {ρ ρ' : ℤ → Prop} {c : Cutout}
    (h : ∀ r, ρ r → ρ' r) (hg : WestGood cfg ρ c) : WestGood cfg ρ' c := by
  obtain ⟨h1, h2, h3⟩ := hg
  refine ⟨h1, h2, ?_⟩
  rcases h3 with hs | ⟨g1, g2, g3, r, g4, g5⟩
  · exact Or.inl hs
  · exact Or.inr ⟨g1, g2, g3, r, g4, h r g5⟩

/-- A non-stopping east `fit` call has a rounded x at or below the
admissible ceiling. -/
lemma fit_east_width (cfg : Config) (count : ℤ) (c : Cutout) (x y : ℚ)
    (hdx : c.dx = -1) (h : (Cutout.fit cfg count c x y).2 = false) :
    (⌈x⌉ : ℚ) ≤ cfg.xMax - (cfg.widthMin : ℚ) := by
  dsimp only [Cutout.fit] at h
  split_ifs at h <;> simp_all <;> linarith

/-- A non-stopping west `fit` call has a rounded x at or above the
admissible floor. -/
lemma fit_west_width (cfg : Config) (count : ℤ) (c : Cutout) (x y : ℚ)
    (hdx : c.dx = 1) (h : (Cutout.fit cfg count c x y).2 = false) :
    cfg.xMin + (cfg.widthMin : ℚ) ≤ (⌊x⌋ : ℚ) := by
  dsimp only [Cutout.fit] at h
  split_ifs at h <;> simp_all <;> linarith

/-- `fit` preserves the east-accumulator invariant, when fed a value at
or above `xMin` at a row satisfying the predicate. -/
lemma fit_EastGood (cfg : Config) (count : ℤ) (c : Cutout) (x : ℚ) (r : ℤ)
    (ρ : ℤ → Prop) (hdx : c.dx = -1) (hx : cfg.xMin ≤ x)
    (hg : EastGood cfg ρ c) (hρ : ρ r) :
    EastGood cfg ρ (Cutout.fit cfg count c x (r : ℚ)).1 := by
  obtain ⟨hxmInt, hxmLe, hbest⟩ := hg
  rcases hstop : (Cutout.fit cfg count c x (r : ℚ)).2 with _ | _
  · -- continue
    have hw : (⌈x⌉ : ℚ) ≤ cfg.xMax - (cfg.widthMin : ℚ) :=
      fit_east_width cfg count c x _ hdx hstop
    rw [fit_cont_spec cfg count c x _ hstop]
    dsimp only
    have hxc : (if c.dx = -1 then max (⌈x⌉ : ℚ) c.xm else min (⌊x⌋ : ℚ) c.xm)
        = max (⌈x⌉ : ℚ) c.xm := by rw [hdx]; simp
    rw [hxc]
    have hxcInt : isInt (max (⌈x⌉ : ℚ) c.xm) := isInt_max ⟨⌈x⌉, rfl⟩ hxmInt
    have hxcLe : max (⌈x⌉ : ℚ) c.xm ≤ cfg.xMax - (cfg.widthMin : ℚ) := max_le hw hxmLe
    have hxcGe : cfg.xMin ≤ max (⌈x⌉ : ℚ) c.xm :=
      le_trans (le_trans hx (Int.le_ceil x)) (le_max_left _ _)
    split_ifs
    · exact ⟨hxcInt, hxcLe, Or.inr ⟨hxcGe, hxcLe, hxcInt, r, rfl, hρ⟩⟩
    · refine ⟨hxcInt, hxcLe, ?_⟩
      rcases hbest with ⟨h1, h2, _⟩ | h2nd
      · exact Or.inl ⟨h1, h2, rfl⟩
      · exact Or.inr h2nd
    · exact ⟨hxcInt, hxcLe, Or.inr ⟨hxcGe, hxcLe, hxcInt, r, rfl, hρ⟩⟩
    · refine ⟨hxcInt, hxcLe, ?_⟩
      rcases hbest with ⟨h1, h2, h3⟩ | h2nd
      · exact Or.inl ⟨h1, h2, h3⟩
      · exact Or.inr h2nd
  · -- stop
    rw [fit_stop_spec cfg count c x _ hstop]
    split_ifs with hcnt
    · refine ⟨hxmInt, hxmLe, ?_⟩
      rcases hbest with ⟨h1, h2, _⟩ | h2nd
      · exact Or.inl ⟨h1, h2, rfl⟩
      · exact Or.inr h2nd
    · exact ⟨hxmInt, hxmLe, hbest⟩

/-- `fit` preserves the west-accumulator invariant, when fed a value at
or below `xMax` at a row satisfying the predicate. -/
lemma fit_WestGood (cfg : Config) (count : ℤ) (c : Cutout) (x : ℚ) (r : ℤ)
    (ρ : ℤ → Prop) (hdx : c.dx = 1) (hx : x ≤ cfg.xMax)
    (hg : WestGood cfg ρ c) (hρ : ρ r) :
    WestGood cfg ρ (Cutout.fit cfg count c x (r : ℚ)).1 := by
  obtain ⟨hxmInt, hxmLe, hbest⟩ := hg
  rcases hstop : (Cutout.fit cfg count c x (r : ℚ)).2 with _ | _
  · -- continue
    have hw : cfg.xMin + (cfg.widthMin : ℚ) ≤ (⌊x⌋ : ℚ) :=
      fit_west_width cfg count c x _ hdx hstop
    rw [fit_cont_spec cfg count c x _ hstop]
    dsimp only
    have hxc : (if c.dx = -1 then max (⌈x⌉ : ℚ) c.xm else min (⌊x⌋ : ℚ) c.xm)
        = min (⌊x⌋ : ℚ) c.xm := by
      rw [hdx]
      simp
    rw [hxc]
    have hxcInt : isInt (min (⌊x⌋ : ℚ) c.xm) := isInt_min ⟨⌊x⌋, rfl⟩ hxmInt
    have hxcLe : cfg.xMin + (cfg.widthMin : ℚ) ≤ min (⌊x⌋ : ℚ) c.xm := le_min hw hxmLe
    have hxcGe : min (⌊x⌋ : ℚ) c.xm ≤ cfg.xMax :=
      le_trans (min_le_left _ _) (le_trans (Int.floor_le x) hx)
    split_ifs
    · exact ⟨hxcInt, hxcLe, Or.inr ⟨hxcLe, hxcGe, hxcInt, r, rfl, hρ⟩⟩
    · refine ⟨hxcInt, hxcLe, ?_⟩
      rcases hbest with ⟨h1, h2, _⟩ | h2nd
      · exact Or.inl ⟨h1, h2, rfl⟩
      · exact Or.inr h2nd
    · exact ⟨hxcInt, hxcLe, Or.inr ⟨hxcLe, hxcGe, hxcInt, r, rfl, hρ⟩⟩
    · refine ⟨hxcInt, hxcLe, ?_⟩
      rcases hbest with ⟨h1, h2, h3⟩ | h2nd
      · exact Or.inl ⟨h1, h2, h3⟩
      · exact Or.inr h2nd
  · -- stop
    rw [fit_stop_spec cfg count c x _ hstop]
    split_ifs with hcnt
    · refine ⟨hxmInt, hxmLe, ?_⟩
      rcases hbest with ⟨h1, h2, _⟩ | h2nd
      · exact Or.inl ⟨h1, h2, rfl⟩
      · exact Or.inr h2nd
    · exact ⟨hxmInt, hxmLe, hbest⟩

/-- Guarded-fit preservation of the east invariant: the row predicate is
only required when the accumulator is actually fed. -/
lemma feedFit_EastGood (cfg : Config) (count : ℤ) (c : Cutout) (x : ℚ) (r : ℤ)
    (feed : Bool) (ρ : ℤ → Prop) (hdx : c.dx = -1) (hx : cfg.xMin ≤ x)
    (hg : EastGood cfg ρ c) (hρ : feed = true → ρ r) :
    EastGood cfg ρ (if feed then Cutout.fit cfg count c x (r : ℚ) else (c, false)).1 := by
  cases feed with
  | false => exact hg
  | true => exact fit_EastGood cfg count c x r ρ hdx hx hg (hρ rfl)

/-- Guarded-fit preservation of the west invariant. -/
lemma feedFit_WestGood (cfg : Config) (count : ℤ) (c : Cutout) (x : ℚ) (r : ℤ)
    (feed : Bool) (ρ : ℤ → Prop) (hdx : c.dx = 1) (hx : x ≤ cfg.xMax)
    (hg : WestGood cfg ρ c) (hρ : feed = true → ρ r) :
    WestGood cfg ρ (if feed then Cutout.fit cfg count c x (r : ℚ) else (c, false)).1 := by
  cases feed with
  | false => exact hg
  | true => exact fit_WestGood cfg count c x r ρ hdx hx hg (hρ rfl)

/-- The guarded-fit pattern preserves the y-direction sign. -/
lemma feedFit_dy (cfg : Config) (count : ℤ) (c : Cutout) (x y : ℚ) (feed : Bool) :
    (if feed then Cutout.fit cfg count c x y else (c, false)).1.dy = c.dy := by
  cases feed with
  | false => rfl
  | true => exact (fit_frame cfg count c x y).2.1

/-- The values fed to the accumulators (contour extent, or the empty-row
default `(xMax, xMin)`) are bounded by the box. -/
lemma bounds_mem (cfg : Config) (c : Contour) (hc : InBox cfg c) (y : ℤ) :
    cfg.xMin ≤ ((c.xBoundsAtY y).getD (cfg.xMax, cfg.xMin)).2 ∧
    ((c.xBoundsAtY y).getD (cfg.xMax, cfg.xMin)).1 ≤ cfg.xMax := by
  cases hob : c.xBoundsAtY y with
  | none => exact ⟨le_rfl, le_rfl⟩
  | some p =>
    obtain ⟨h1, h2, h3⟩ := hc y p hob
    exact ⟨le_trans h1 h2, le_trans h2 h3⟩

/-- A freshly reset east accumulator satisfies the east invariant for
any row predicate. -/
lemma reset_EastGood (cfg : Config) (hS : Sane cfg) (dy : ℤ) (ρ : ℤ → Prop) :
    EastGood cfg ρ ((Cutout.init (-1) dy).reset) := by
  have hcast : (((-1 : ℤ) * MAX : ℤ) : ℚ) = -MAXq := by
    unfold MAXq
    push_cast
    ring
  dsimp only [Cutout.init, Cutout.reset]
  refine ⟨⟨(-1) * MAX, rfl⟩, ?_, Or.inl ⟨hcast, rfl, rfl⟩⟩
  show (((-1 : ℤ) * MAX : ℤ) : ℚ) ≤ cfg.xMax - (cfg.widthMin : ℚ)
  rw [hcast]
  have h1 := hS.xlo
  have h2 := hS.xfit
  linarith

/-- A freshly reset west accumulator satisfies the west invariant for
any row predicate. -/
lemma reset_WestGood (cfg : Config) (hS : Sane cfg) (dy : ℤ) (ρ : ℤ → Prop) :
    WestGood cfg ρ ((Cutout.init 1 dy).reset) := by
  have hcast : (((1 : ℤ) * MAX : ℤ) : ℚ) = MAXq := by
    unfold MAXq
    push_cast
    ring
  dsimp only [Cutout.init, Cutout.reset]
  refine ⟨⟨(1) * MAX, rfl⟩, ?_, Or.inl ⟨hcast, rfl, rfl⟩⟩
  show cfg.xMin + (cfg.widthMin : ℚ) ≤ (((1 : ℤ) * MAX : ℤ) : ℚ)
  rw [hcast]
  have h1 := hS.xhi
  have h2 := hS.xfit
  linarith

/-- Invariants of the south pass: direction signs, the accumulator
invariants with rows bounded by the recorded stopping row and the top
row, and the stopping-row bounds. -/
lemma southLoop_good (cfg : Config) (c : Contour) (hS : Sane cfg) (hc : InBox cfg c) :
    ∀ (fuel : ℕ) (y : ℤ) (st : SState),
    pyInt cfg.yMin ≤ y → y + (fuel : ℤ) ≤ pyInt cfg.yMax + 1 →
    st.se.dx = -1 → st.se.dy = 1 → st.sw.dx = 1 → st.sw.dy = 1 →
    EastGood cfg (fun r => pyInt cfg.yMin ≤ r ∧ r < y ∧ r ≤ st.yMinE) st.se →
    WestGood cfg (fun r => pyInt cfg.yMin ≤ r ∧ r < y ∧ r ≤ st.yMinW) st.sw →
    (st.se.go = true → st.yMinE = pyInt cfg.yMax) →
    (st.sw.go = true → st.yMinW = pyInt cfg.yMax) →
    (pyInt cfg.yMin ≤ st.yMinE ∨ st.yMinE = pyInt cfg.yMax) →
    (pyInt cfg.yMin ≤ st.yMinW ∨ st.yMinW = pyInt cfg.yMax) →
    st.yMinE ≤ pyInt cfg.yMax → st.yMinW ≤ pyInt cfg.yMax →
    (southLoop cfg c fuel y st).se.dx = -1 ∧ (southLoop cfg c fuel y st).se.dy = 1 ∧
    (southLoop cfg c fuel y st).sw.dx = 1 ∧ (southLoop cfg c fuel y st).sw.dy = 1 ∧
    EastGood cfg (fun r => pyInt cfg.yMin ≤ r ∧ r ≤ (southLoop cfg c fuel y st).yMinE ∧
        r ≤ pyInt cfg.yMax) (southLoop cfg c fuel y st).se ∧
    WestGood cfg (fun r => pyInt cfg.yMin ≤ r ∧ r ≤ (southLoop cfg c fuel y st).yMinW ∧
        r ≤ pyInt cfg.yMax) (southLoop cfg c fuel y st).sw ∧
    (pyInt cfg.yMin ≤ (southLoop cfg c fuel y st).yMinE ∨
        (southLoop cfg c fuel y st).yMinE = pyInt cfg.yMax) ∧
    (pyInt cfg.yMin ≤ (southLoop cfg c fuel y st).yMinW ∨
        (southLoop cfg c fuel y st).yMinW = pyInt cfg.yMax) ∧
    (southLoop cfg c fuel y st).yMinE ≤ pyInt cfg.yMax ∧
    (southLoop cfg c fuel y st).yMinW ≤ pyInt cfg.yMax := by
  intro fuel
  induction fuel with
  | zero =>
    intro y st hylo hyhi hdxE hdyE hdxW hdyW hE hW hgoE hgoW hDE hDW hEE hEW
    refine ⟨hdxE, hdyE, hdxW, hdyW, ?_, ?_, hDE, hDW, hEE, hEW⟩
    · exact hE.monoRho (fun r hr => ⟨hr.1, hr.2.2, by obtain ⟨a, b, d⟩ := hr; push_cast at hyhi; omega⟩)
    · exact hW.monoPred (fun r hr => ⟨hr.1, hr.2.2, by obtain ⟨a, b, d⟩ := hr; push_cast at hyhi; omega⟩)
  | succ n ih =>
    intro y st hylo hyhi hdxE hdyE hdxW hdyW hE hW hgoE hgoW hDE hDW hEE hEW
    have hyle : y ≤ pyInt cfg.yMax := by push_cast at hyhi; omega
    have hb := bounds_mem cfg c hc y
    set COUNT := if (c.xBoundsAtY y).isSome then st.count + 1 else st.count with hCOUNT
    set B := (c.xBoundsAtY y).getD (cfg.xMax, cfg.xMin) with hBdef
    have hfe : (southStep cfg c st y).1.se
        = (if st.se.go then Cutout.fit cfg COUNT st.se B.2 (y : ℚ) else (st.se, false)).1 := rfl
    have hfw : (southStep cfg c st y).1.sw
        = (if st.sw.go then Cutout.fit cfg COUNT st.sw B.1 (y : ℚ) else (st.sw, false)).1 := rfl
    have hyE : (southStep cfg c st y).1.yMinE
        = if (if st.se.go then Cutout.fit cfg COUNT st.se B.2 (y : ℚ) else (st.se, false)).2
          then y else st.yMinE := rfl
    have hyW : (southStep cfg c st y).1.yMinW
        = if (if st.sw.go then Cutout.fit cfg COUNT st.sw B.1 (y : ℚ) else (st.sw, false)).2
          then y else st.yMinW := rfl
    have hdxE' : (southStep cfg c st y).1.se.dx = -1 := by
      rw [hfe, feedFit_dx]; exact hdxE
    have hdyE' : (southStep cfg c st y).1.se.dy = 1 := by
      rw [hfe, feedFit_dy]; exact hdyE
    have hdxW' : (southStep cfg c st y).1.sw.dx = 1 := by
      rw [hfw, feedFit_dx]; exact hdxW
    have hdyW' : (southStep cfg c st y).1.sw.dy = 1 := by
      rw [hfw, feedFit_dy]; exact hdyW
    have hDE' : pyInt cfg.yMin ≤ (southStep cfg c st y).1.yMinE ∨
        (southStep cfg c st y).1.yMinE = pyInt cfg.yMax := by
      rw [hyE]
      split_ifs <;> first | exact Or.inl hylo | exact hDE | (exfalso; assumption)
    have hDW' : pyInt cfg.yMin ≤ (southStep cfg c st y).1.yMinW ∨
        (southStep cfg c st y).1.yMinW = pyInt cfg.yMax := by
      rw [hyW]
      split_ifs <;> first | exact Or.inl hylo | exact hDW | (exfalso; assumption)
    have hEE' : (southStep cfg c st y).1.yMinE ≤ pyInt cfg.yMax := by
      rw [hyE]
      split_ifs <;> first | exact hyle | exact hEE | (exfalso; assumption)
    have hEW' : (southStep cfg c st y).1.yMinW ≤ pyInt cfg.yMax := by
      rw [hyW]
      split_ifs <;> first | exact hyle | exact hEW | (exfalso; assumption)
    have hgoE' : (southStep cfg c st y).1.se.go = true →
        (southStep cfg c st y).1.yMinE = pyInt cfg.yMax := by
      rw [hfe, hyE]
      rcases hgo : st.se.go with _ | _
      · simp only [hgo, Bool.false_eq_true, if_false]
        intro habs
        exact absurd habs (by simp [hgo])
      · simp only [hgo, if_true]
        rcases hstop : (Cutout.fit cfg COUNT st.se B.2 (y : ℚ)).2 with _ | _
        · simp only [hstop, Bool.false_eq_true, if_false]
          intro _
          exact hgoE hgo
        · simp only [hstop, if_true]
          intro habs
          rw [fit_stop_spec _ _ _ _ _ hstop] at habs
          revert habs
          split_ifs <;> simp
    have hgoW' : (southStep cfg c st y).1.sw.go = true →
        (southStep cfg c st y).1.yMinW = pyInt cfg.yMax := by
      rw [hfw, hyW]
      rcases hgo : st.sw.go with _ | _
      · simp only [hgo, Bool.false_eq_true, if_false]
        intro habs
        exact absurd habs (by simp [hgo])
      · simp only [hgo, if_true]
        rcases hstop : (Cutout.fit cfg COUNT st.sw B.1 (y : ℚ)).2 with _ | _
        · simp only [hstop, Bool.false_eq_true, if_false]
          intro _
          exact hgoW hgo
        · simp only [hstop, if_true]
          intro habs
          rw [fit_stop_spec _ _ _ _ _ hstop] at habs
          revert habs
          split_ifs <;> simp
    have hE' : EastGood cfg (fun r => pyInt cfg.yMin ≤ r ∧ r < y + 1 ∧
        r ≤ (southStep cfg c st y).1.yMinE) (southStep cfg c st y).1.se := by
      rw [hfe, hyE]
      rcases hfit2 : (if st.se.go then Cutout.fit cfg COUNT st.se B.2 (y : ℚ)
          else (st.se, false)).2 with _ | _
      · simp only [hfit2, Bool.false_eq_true, if_false]
        refine feedFit_EastGood cfg COUNT st.se B.2 y st.se.go _ hdxE hb.1 ?_ ?_
        · exact hE.monoRho (fun r hr => ⟨hr.1, by obtain ⟨a, b, d⟩ := hr; omega, hr.2.2⟩)
        · intro hgo
          refine ⟨hylo, by omega, ?_⟩
          rw [hgoE hgo]
          exact hyle
      · simp only [hfit2, if_true]
        refine feedFit_EastGood cfg COUNT st.se B.2 y st.se.go _ hdxE hb.1 ?_ ?_
        · exact hE.monoRho (fun r hr =>
            ⟨hr.1, by obtain ⟨a, b, d⟩ := hr; omega, by obtain ⟨a, b, d⟩ := hr; omega⟩)
        · intro hgo
          exact ⟨hylo, by omega, le_rfl⟩
    have hW' : WestGood cfg (fun r => pyInt cfg.yMin ≤ r ∧ r < y + 1 ∧
        r ≤ (southStep cfg c st y).1.yMinW) (southStep cfg c st y).1.sw := by
      rw [hfw, hyW]
      rcases hfit2 : (if st.sw.go then Cutout.fit cfg COUNT st.sw B.1 (y : ℚ)
          else (st.sw, false)).2 with _ | _
      · simp only [hfit2, Bool.false_eq_true, if_false]
        refine feedFit_WestGood cfg COUNT st.sw B.1 y st.sw.go _ hdxW hb.2 ?_ ?_
        · exact hW.monoPred (fun r hr => ⟨hr.1, by obtain ⟨a, b, d⟩ := hr; omega, hr.2.2⟩)
        · intro hgo
          refine ⟨hylo, by omega, ?_⟩
          rw [hgoW hgo]
          exact hyle
      · simp only [hfit2, if_true]
        refine feedFit_WestGood cfg COUNT st.sw B.1 y st.sw.go _ hdxW hb.2 ?_ ?_
        · exact hW.monoPred (fun r hr =>
            ⟨hr.1, by obtain ⟨a, b, d⟩ := hr; omega, by obtain ⟨a, b, d⟩ := hr; omega⟩)
        · intro hgo
          exact ⟨hylo, by omega, le_rfl⟩
    rw [southLoop]
    by_cases hcont : (southStep cfg c st y).2 = true
    · simp only [hcont, if_true]
      exact ih (y + 1) (southStep cfg c st y).1 (by omega) (by push_cast at hyhi ⊢; omega)
        hdxE' hdyE' hdxW' hdyW' hE' hW' hgoE' hgoW' hDE' hDW' hEE' hEW'
    · simp only [hcont, if_false]
      refine ⟨hdxE', hdyE', hdxW', hdyW', ?_, ?_, hDE', hDW', hEE', hEW'⟩
      · exact hE'.monoRho (fun r hr => ⟨hr.1, hr.2.2, by obtain ⟨a, b, d⟩ := hr; omega⟩)
      · exact hW'.monoPred (fun r hr => ⟨hr.1, hr.2.2, by obtain ⟨a, b, d⟩ := hr; omega⟩)

/-- Invariants of the north pass: direction signs and the accumulator
invariants, with rows strictly above the matching stopping row. -/
lemma northLoop_good (cfg : Config) (c : Contour) (hS : Sane cfg) (hc : InBox cfg c)
    (yE yW : ℤ) :
    ∀ (fuel : ℕ) (y : ℤ) (st : NState),
    y ≤ pyInt cfg.yMax →
    st.ne.dx = -1 → st.ne.dy = -1 → st.nw.dx = 1 → st.nw.dy = -1 →
    EastGood cfg (fun r => yE < r ∧ r ≤ pyInt cfg.yMax) st.ne →
    WestGood cfg (fun r => yW < r ∧ r ≤ pyInt cfg.yMax) st.nw →
    (northLoop cfg c yE yW fuel y st).ne.dx = -1 ∧
    (northLoop cfg c yE yW fuel y st).ne.dy = -1 ∧
    (northLoop cfg c yE yW fuel y st).nw.dx = 1 ∧
    (northLoop cfg c yE yW fuel y st).nw.dy = -1 ∧
    EastGood cfg (fun r => yE < r ∧ r ≤ pyInt cfg.yMax)
      (northLoop cfg c yE yW fuel y st).ne ∧
    WestGood cfg (fun r => yW < r ∧ r ≤ pyInt cfg.yMax)
      (northLoop cfg c yE yW fuel y st).nw := by
  intro fuel
  induction fuel with
  | zero =>
    intro y st _ hdxE hdyE hdxW hdyW hE hW
    exact ⟨hdxE, hdyE, hdxW, hdyW, hE, hW⟩
  | succ n ih =>
    intro y st hyle hdxE hdyE hdxW hdyW hE hW
    set COUNT := if (c.xBoundsAtY y).isSome then st.count + 1 else st.count with hCOUNT
    set B := (c.xBoundsAtY y).getD (cfg.xMax, cfg.xMin) with hBdef
    have hb := bounds_mem cfg c hc y
    have hfe : (northStep cfg c yE yW st y).1.ne
        = (if st.ne.go && decide (yE < y) then Cutout.fit cfg COUNT st.ne B.2 (y : ℚ)
          else (st.ne, false)).1 := rfl
    have hfw : (northStep cfg c yE yW st y).1.nw
        = (if st.nw.go && decide (yW < y) then Cutout.fit cfg COUNT st.nw B.1 (y : ℚ)
          else (st.nw, false)).1 := rfl
    have hdxE' : (northStep cfg c yE yW st y).1.ne.dx = -1 := by
      rw [hfe, feedFit_dx]; exact hdxE
    have hdyE' : (northStep cfg c yE yW st y).1.ne.dy = -1 := by
      rw [hfe, feedFit_dy]; exact hdyE
    have hdxW' : (northStep cfg c yE yW st y).1.nw.dx = 1 := by
      rw [hfw, feedFit_dx]; exact hdxW
    have hdyW' : (northStep cfg c yE yW st y).1.nw.dy = -1 := by
      rw [hfw, feedFit_dy]; exact hdyW
    have hE' : EastGood cfg (fun r => yE < r ∧ r ≤ pyInt cfg.yMax)
        (northStep cfg c yE yW st y).1.ne := by
      rw [hfe]
      refine feedFit_EastGood cfg COUNT st.ne B.2 y _ _ hdxE hb.1 hE ?_
      intro hfeed
      rw [Bool.and_eq_true] at hfeed
      exact ⟨of_decide_eq_true hfeed.2, hyle⟩
    have hW' : WestGood cfg (fun r => yW < r ∧ r ≤ pyInt cfg.yMax)
        (northStep cfg c yE yW st y).1.nw := by
      rw [hfw]
      refine feedFit_WestGood cfg COUNT st.nw B.1 y _ _ hdxW hb.2 hW ?_
      intro hfeed
      rw [Bool.and_eq_true] at hfeed
      exact ⟨of_decide_eq_true hfeed.2, hyle⟩
    rw [northLoop]
    by_cases hcont : (northStep cfg c yE yW st y).2 = true
    · simp only [hcont, if_true]
      exact ih (y - 1) (northStep cfg c yE yW st y).1 (by omega)
        hdxE' hdyE' hdxW' hdyW' hE' hW'
    · simp only [hcont, if_false]
      exact ⟨hdxE', hdyE', hdxW', hdyW', hE', hW'⟩

/-- All accumulator invariants at the end of a full contour scan. -/
lemma scanContour_good (cfg : Config) (c : Contour) (hS : Sane cfg) (hc : InBox cfg c) :
    (scanContour cfg c).se.dx = -1 ∧ (scanContour cfg c).se.dy = 1 ∧
    (scanContour cfg c).sw.dx = 1 ∧ (scanContour cfg c).sw.dy = 1 ∧
    (scanContour cfg c).ne.dx = -1 ∧ (scanContour cfg c).ne.dy = -1 ∧
    (scanContour cfg c).nw.dx = 1 ∧ (scanContour cfg c).nw.dy = -1 ∧
    EastGood cfg (fun t => pyInt cfg.yMin ≤ t ∧ t ≤ (scanContour cfg c).yMinE ∧
        t ≤ pyInt cfg.yMax) (scanContour cfg c).se ∧
    WestGood cfg (fun t => pyInt cfg.yMin ≤ t ∧ t ≤ (scanContour cfg c).yMinW ∧
        t ≤ pyInt cfg.yMax) (scanContour cfg c).sw ∧
    EastGood cfg (fun t => (scanContour cfg c).yMinE < t ∧ t ≤ pyInt cfg.yMax)
      (scanContour cfg c).ne ∧
    WestGood cfg (fun t => (scanContour cfg c).yMinW < t ∧ t ≤ pyInt cfg.yMax)
      (scanContour cfg c).nw ∧
    (pyInt cfg.yMin ≤ (scanContour cfg c).yMinE ∨ (scanContour cfg c).yMinE = pyInt cfg.yMax) ∧
    (pyInt cfg.yMin ≤ (scanContour cfg c).yMinW ∨ (scanContour cfg c).yMinW = pyInt cfg.yMax) ∧
    (scanContour cfg c).yMinE ≤ pyInt cfg.yMax ∧
    (scanContour cfg c).yMinW ≤ pyInt cfg.yMax := by
  dsimp only [scanContour]
  set s0 : SState :=
    { se := (Cutout.init (-1) 1).reset, sw := (Cutout.init 1 1).reset
      yMinE := pyInt cfg.yMax, yMinW := pyInt cfg.yMax, count := -1 } with hs0
  set s1 := southLoop cfg c (pyInt cfg.yMax + 1 - pyInt cfg.yMin).toNat (pyInt cfg.yMin) s0
    with hs1
  set n0 : NState :=
    { ne := (Cutout.init (-1) (-1)).reset, nw := (Cutout.init 1 (-1)).reset
      count := -1, neRows := [], nwRows := [], neProc := 0, nwProc := 0 } with hn0
  have hsouth : s1.se.dx = -1 ∧ s1.se.dy = 1 ∧ s1.sw.dx = 1 ∧ s1.sw.dy = 1 ∧
      EastGood cfg (fun t => pyInt cfg.yMin ≤ t ∧ t ≤ s1.yMinE ∧ t ≤ pyInt cfg.yMax) s1.se ∧
      WestGood cfg (fun t => pyInt cfg.yMin ≤ t ∧ t ≤ s1.yMinW ∧ t ≤ pyInt cfg.yMax) s1.sw ∧
      (pyInt cfg.yMin ≤ s1.yMinE ∨ s1.yMinE = pyInt cfg.yMax) ∧
      (pyInt cfg.yMin ≤ s1.yMinW ∨ s1.yMinW = pyInt cfg.yMax) ∧
      s1.yMinE ≤ pyInt cfg.yMax ∧ s1.yMinW ≤ pyInt cfg.yMax := by
    rw [hs1]
    by_cases hrange : pyInt cfg.yMin ≤ pyInt cfg.yMax + 1
    · exact southLoop_good cfg c hS hc (pyInt cfg.yMax + 1 - pyInt cfg.yMin).toNat
        (pyInt cfg.yMin) s0 le_rfl
        (by rw [Int.toNat_of_nonneg (by omega)]; omega)
        rfl rfl rfl rfl (reset_EastGood cfg hS 1 _) (reset_WestGood cfg hS 1 _)
        (fun _ => rfl) (fun _ => rfl) (Or.inr rfl) (Or.inr rfl) le_rfl le_rfl
    · have h0 : (pyInt cfg.yMax + 1 - pyInt cfg.yMin).toNat = 0 := by omega
      rw [h0]
      exact ⟨rfl, rfl, rfl, rfl, reset_EastGood cfg hS 1 _, reset_WestGood cfg hS 1 _,
        Or.inr rfl, Or.inr rfl, le_rfl, le_rfl⟩
  have hnorth := northLoop_good cfg c hS hc s1.yMinE s1.yMinW
    ((pyInt cfg.yMax - min s1.yMinE s1.yMinW).toNat) (pyInt cfg.yMax) n0 le_rfl
    rfl rfl rfl rfl (reset_EastGood cfg hS (-1) _) (reset_WestGood cfg hS (-1) _)
  exact ⟨hsouth.1, hsouth.2.1, hsouth.2.2.1, hsouth.2.2.2.1,
    hnorth.1, hnorth.2.1, hnorth.2.2.1, hnorth.2.2.2.1,
    hsouth.2.2.2.2.1, hsouth.2.2.2.2.2.1,
    hnorth.2.2.2.2.1, hnorth.2.2.2.2.2,
    hsouth.2.2.2.2.2.2.1, hsouth.2.2.2.2.2.2.2.1,
    hsouth.2.2.2.2.2.2.2.2.1, hsouth.2.2.2.2.2.2.2.2.2⟩

/-- The combine step preserves the SE combined-corner invariant. -/
lemma combine_CornSE (cfg : Config) (g : Glyph) (r : ScanResult) (hS : Sane cfg)
    (hdy : r.se.dy = 1)
    (hE : EastGood cfg (fun t => t ≤ pyInt cfg.yMax) r.se)
    (hC : CornSE cfg g.se) : CornSE cfg (combine cfg g r).se := by
  have hPM : ((pyInt cfg.yMax : ℤ) : ℚ) ≤ MAXq := pyInt_le_MAX hS.yhi
  have hMq : (((1 : ℤ) * MAX : ℤ) : ℚ) = MAXq := by unfold MAXq; push_cast; ring
  obtain ⟨-, -, hbest⟩ := hE
  have e1 : (combine cfg g r).se.cx = max g.se.cx r.se.x := rfl
  have e2 : (combine cfg g r).se.cy = min g.se.cy r.se.y := rfl
  unfold CornSE
  rw [e1, e2]
  rcases hC with ⟨hgx, hgy⟩ | ⟨hg1, hg2, hg3, hg4, hg5⟩
  · rcases hbest with ⟨hx, hy, -⟩ | ⟨hb1, hb2, hb3, t, hbt, hρ⟩
    · left
      rw [hgx, hgy, hx, hy, hdy, hMq]
      exact ⟨max_self _, min_self _⟩
    · right
      have hxmax : max g.se.cx r.se.x = r.se.x := by
        rw [hgx]
        exact max_eq_right (le_of_lt (lt_of_lt_of_le hS.xlo hb1))
      have hymin : min g.se.cy r.se.y = r.se.y := by
        rw [hgy, hbt]
        exact min_eq_right (le_trans (Int.cast_le.mpr hρ) hPM)
      rw [hxmax, hymin, hbt]
      exact ⟨hb1, hb2, hb3, ⟨t, rfl⟩, Int.cast_le.mpr hρ⟩
  · rcases hbest with ⟨hx, hy, -⟩ | ⟨hb1, hb2, hb3, t, hbt, hρ⟩
    · right
      have hxmax : max g.se.cx r.se.x = g.se.cx := by
        rw [hx]
        exact max_eq_left (le_of_lt (lt_of_lt_of_le hS.xlo hg1))
      have hymin : min g.se.cy r.se.y = g.se.cy := by
        rw [hy, hdy, hMq]
        exact min_eq_left (le_trans hg5 hPM)
      rw [hxmax, hymin]
      exact ⟨hg1, hg2, hg3, hg4, hg5⟩
    · right
      refine ⟨le_trans hg1 (le_max_left _ _), max_le hg2 hb2, isInt_max hg3 hb3,
        isInt_min hg4 ⟨t, hbt⟩, le_trans (min_le_left _ _) hg5⟩

/-- The combine step preserves the SW combined-corner invariant. -/
lemma combine_CornSW (cfg : Config) (g : Glyph) (r : ScanResult) (hS : Sane cfg)
    (hdy : r.sw.dy = 1)
    (hW : WestGood cfg (fun t => t ≤ pyInt cfg.yMax) r.sw)
    (hC : CornSW cfg g.sw) : CornSW cfg (combine cfg g r).sw := by
  have hPM : ((pyInt cfg.yMax : ℤ) : ℚ) ≤ MAXq := pyInt_le_MAX hS.yhi
  have hMq : (((1 : ℤ) * MAX : ℤ) : ℚ) = MAXq := by unfold MAXq; push_cast; ring
  obtain ⟨-, -, hbest⟩ := hW
  have e1 : (combine cfg g r).sw.cx = min g.sw.cx r.sw.x := rfl
  have e2 : (combine cfg g r).sw.cy = min g.sw.cy r.sw.y := rfl
  unfold CornSW
  rw [e1, e2]
  rcases hC with ⟨hgx, hgy⟩ | ⟨hg1, hg2, hg3, hg4, hg5⟩
  · rcases hbest with ⟨hx, hy, -⟩ | ⟨hb1, hb2, hb3, t, hbt, hρ⟩
    · left
      rw [hgx, hgy, hx, hy, hdy, hMq]
      exact ⟨min_self _, min_self _⟩
    · right
      have hxmin : min g.sw.cx r.sw.x = r.sw.x := by
        rw [hgx]
        exact min_eq_right (le_trans hb2 (le_of_lt hS.xhi))
      have hymin : min g.sw.cy r.sw.y = r.sw.y := by
        rw [hgy, hbt]
        exact min_eq_right (le_trans (Int.cast_le.mpr hρ) hPM)
      rw [hxmin, hymin, hbt]
      exact ⟨hb1, hb2, hb3, ⟨t, rfl⟩, Int.cast_le.mpr hρ⟩
  · rcases hbest with ⟨hx, hy, -⟩ | ⟨hb1, hb2, hb3, t, hbt, hρ⟩
    · right
      have hxmin : min g.sw.cx r.sw.x = g.sw.cx := by
        rw [hx]
        exact min_eq_left (le_trans hg2 (le_of_lt hS.xhi))
      have hymin : min g.sw.cy r.sw.y = g.sw.cy := by
        rw [hy, hdy, hMq]
        exact min_eq_left (le_trans hg5 hPM)
      rw [hxmin, hymin]
      exact ⟨hg1, hg2, hg3, hg4, hg5⟩
    · right
      refine ⟨le_min hg1 hb1, le_trans (min_le_left _ _) hg2, isInt_min hg3 hb3,
        isInt_min hg4 ⟨t, hbt⟩, le_trans (min_le_left _ _) hg5⟩

/-- The combine step preserves the NE combined-corner invariant (with
the area-gated fallback contribution). -/
lemma combine_CornNE (cfg : Config) (g : Glyph) (r : ScanResult) (hS : Sane cfg)
    (hNE : EastGood cfg (fun t => cfg.yMin ≤ (t : ℚ)) r.ne)
    (hSE : EastGood cfg (fun t => True) r.se)
    (hC : CornNE cfg g.ne) : CornNE cfg (combine cfg g r).ne := by
  obtain ⟨hCx, hCy, -⟩ := hC
  obtain ⟨-, -, hbNE⟩ := hNE
  obtain ⟨-, -, hbSE⟩ := hSE
  have e1 : (combine cfg g r).ne.cx
      = max g.ne.cx (if r.ne.area = 0 then r.se.x else r.ne.x) := rfl
  have e2 : (combine cfg g r).ne.cy
      = max g.ne.cy (if r.ne.area = 0 then cfg.yMin else r.ne.y) := rfl
  have hCX : (if r.ne.area = 0 then r.se.x else r.ne.x) = -MAXq ∨
      (cfg.xMin ≤ (if r.ne.area = 0 then r.se.x else r.ne.x) ∧
       (if r.ne.area = 0 then r.se.x else r.ne.x) ≤ cfg.xMax - (cfg.widthMin : ℚ) ∧
       isInt (if r.ne.area = 0 then r.se.x else r.ne.x)) := by
    split_ifs with ha
    · rcases hbSE with ⟨hx, -, -⟩ | ⟨h1, h2, h3, -⟩
      · exact Or.inl hx
      · exact Or.inr ⟨h1, h2, h3⟩
    · rcases hbNE with ⟨-, -, hz⟩ | ⟨h1, h2, h3, -⟩
      · exact absurd hz ha
      · exact Or.inr ⟨h1, h2, h3⟩
  have hCY : cfg.yMin ≤ (if r.ne.area = 0 then cfg.yMin else r.ne.y) ∧
      IntOrEq cfg.yMin (if r.ne.area = 0 then cfg.yMin else r.ne.y) := by
    split_ifs with ha
    · exact ⟨le_rfl, Or.inr rfl⟩
    · rcases hbNE with ⟨-, -, hz⟩ | ⟨-, -, -, t, hbt, hρ⟩
      · exact absurd hz ha
      · rw [hbt]
        exact ⟨hρ, Or.inl ⟨t, rfl⟩⟩
  have hgecy : cfg.yMin ≤ max g.ne.cy (if r.ne.area = 0 then cfg.yMin else r.ne.y) :=
    le_trans hCY.1 (le_max_right _ _)
  unfold CornNE
  rw [e1, e2]
  refine ⟨?_, ?_, ?_⟩
  · rcases hCx with hgx | ⟨hg1, hg2, hg3⟩
    · rcases hCX with hx | ⟨h1, h2, h3⟩
      · left
        rw [hgx, hx, max_self]
      · right
        rw [hgx, max_eq_right (le_of_lt (lt_of_lt_of_le hS.xlo h1))]
        exact ⟨h1, h2, h3⟩
    · rcases hCX with hx | ⟨h1, h2, h3⟩
      · right
        rw [hx, max_eq_left (le_of_lt (lt_of_lt_of_le hS.xlo hg1))]
        exact ⟨hg1, hg2, hg3⟩
      · right
        exact ⟨le_trans hg1 (le_max_left _ _), max_le hg2 h2, isInt_max hg3 h3⟩
  · right
    refine ⟨?_, hgecy⟩
    rcases hCy with hgy | ⟨hint, hgeold⟩
    · rw [max_eq_right ?_]
      · exact hCY.2
      · rw [hgy]
        have := hS.ylo
        linarith [hCY.1]
    · rcases max_choice g.ne.cy (if r.ne.area = 0 then cfg.yMin else r.ne.y) with h | h <;>
        rw [h]
      · exact hint
      · exact hCY.2
  · intro _ habs
    rw [habs] at hgecy
    have := hS.ylo
    unfold MAXq at hgecy this
    linarith

/-- The combine step preserves the NW combined-corner invariant. -/
lemma combine_CornNW (cfg : Config) (g : Glyph) (r : ScanResult) (hS : Sane cfg)
    (hNW : WestGood cfg (fun t => cfg.yMin ≤ (t : ℚ)) r.nw)
    (hSW : WestGood cfg (fun t => True) r.sw)
    (hC : CornNW cfg g.nw) : CornNW cfg (combine cfg g r).nw := by
  obtain ⟨hCx, hCy, -⟩ := hC
  obtain ⟨-, -, hbNW⟩ := hNW
  obtain ⟨-, -, hbSW⟩ := hSW
  have e1 : (combine cfg g r).nw.cx
      = min g.nw.cx (if r.nw.area = 0 then r.sw.x else r.nw.x) := rfl
  have e2 : (combine cfg g r).nw.cy
      = max g.nw.cy (if r.nw.area = 0 then cfg.yMin else r.nw.y) := rfl
  have hCX : (if r.nw.area = 0 then r.sw.x else r.nw.x) = MAXq ∨
      (cfg.xMin + (cfg.widthMin : ℚ) ≤ (if r.nw.area = 0 then r.sw.x else r.nw.x) ∧
       (if r.nw.area = 0 then r.sw.x else r.nw.x) ≤ cfg.xMax ∧
       isInt (if r.nw.area = 0 then r.sw.x else r.nw.x)) := by
    split_ifs with ha
    · rcases hbSW with ⟨hx, -, -⟩ | ⟨h1, h2, h3, -⟩
      · exact Or.inl hx
      · exact Or.inr ⟨h1, h2, h3⟩
    · rcases hbNW with ⟨-, -, hz⟩ | ⟨h1, h2, h3, -⟩
      · exact absurd hz ha
      · exact Or.inr ⟨h1, h2, h3⟩
  have hCY : cfg.yMin ≤ (if r.nw.area = 0 then cfg.yMin else r.nw.y) ∧
      IntOrEq cfg.yMin (if r.nw.area = 0 then cfg.yMin else r.nw.y) := by
    split_ifs with ha
    · exact ⟨le_rfl, Or.inr rfl⟩
    · rcases hbNW with ⟨-, -, hz⟩ | ⟨-, -, -, t, hbt, hρ⟩
      · exact absurd hz ha
      · rw [hbt]
        exact ⟨hρ, Or.inl ⟨t, rfl⟩⟩
  have hgecy : cfg.yMin ≤ max g.nw.cy (if r.nw.area = 0 then cfg.yMin else r.nw.y) :=
    le_trans hCY.1 (le_max_right _ _)
  unfold CornNW
  rw [e1, e2]
  refine ⟨?_, ?_, ?_⟩
  · rcases hCx with hgx | ⟨hg1, hg2, hg3⟩
    · rcases hCX with hx | ⟨h1, h2, h3⟩
      · left
        rw [hgx, hx, min_self]
      · right
        rw [hgx, min_eq_right (le_trans h2 (le_of_lt hS.xhi))]
        exact ⟨h1, h2, h3⟩
    · rcases hCX with hx | ⟨h1, h2, h3⟩
      · right
        rw [hx, min_eq_left (le_trans hg2 (le_of_lt hS.xhi))]
        exact ⟨hg1, hg2, hg3⟩
      · right
        exact ⟨le_min hg1 h1, le_trans (min_le_left _ _) hg2, isInt_min hg3 h3⟩
  · right
    refine ⟨?_, hgecy⟩
    rcases hCy with hgy | ⟨hint, hgeold⟩
    · rw [max_eq_right ?_]
      · exact hCY.2
      · rw [hgy]
        have := hS.ylo
        linarith [hCY.1]
    · rcases max_choice g.nw.cy (if r.nw.area = 0 then cfg.yMin else r.nw.y) with h | h <;>
        rw [h]
      · exact hint
      · exact hCY.2
  · intro _ habs
    rw [habs] at hgecy
    have := hS.ylo
    unfold MAXq at hgecy this
    linarith

/-- The initial glyph state satisfies the glyph invariant. -/
lemma start_GlyphInv (cfg : Config) : GlyphInv cfg Glyph.start := by
  have hneg : (((-1 : ℤ) * MAX : ℤ) : ℚ) = -MAXq := by unfold MAXq; push_cast; ring
  have hpos : (((1 : ℤ) * MAX : ℤ) : ℚ) = MAXq := by unfold MAXq; push_cast; ring
  refine ⟨rfl, rfl, rfl, rfl, rfl, rfl, rfl, rfl, ?_, ?_, ?_, ?_⟩
  · exact Or.inl ⟨hneg, hpos⟩
  · exact Or.inl ⟨hpos, hpos⟩
  · exact ⟨Or.inl hneg, Or.inl hneg, fun h => absurd hneg h⟩
  · exact ⟨Or.inl hpos, Or.inl hneg, fun h => absurd hpos h⟩

/-- Processing one contour preserves the glyph invariant. -/
lemma scanOne_GlyphInv (cfg : Config) (g : Glyph) (c : Contour) (hS : Sane cfg)
    (hc : InBox cfg c) (hg : GlyphInv cfg g) : GlyphInv cfg (scanOne cfg g c) := by
  by_cases hcw : c.clockwise
  · have hgood := scanContour_good cfg c hS hc
    obtain ⟨h1, h2, h3, h4, h5, h6, h7, h8, hgE, hgW, hgNE, hgNW, hDE, hDW, hEE, hEW⟩ := hgood
    obtain ⟨-, -, -, -, -, -, -, -, gSE, gSW, gNE, gNW⟩ := hg
    have hyMinLt : ∀ t : ℤ, pyInt cfg.yMin < t → cfg.yMin ≤ (t : ℚ) := by
      intro t ht
      have h0 := sub_one_lt_pyInt cfg.yMin
      have h1 : ((pyInt cfg.yMin : ℤ) : ℚ) + 1 ≤ (t : ℚ) := by
        have := Int.add_one_le_iff.mpr ht
        exact_mod_cast this
      linarith
    have hNEρ : ∀ t : ℤ, (scanContour cfg c).yMinE < t ∧ t ≤ pyInt cfg.yMax →
        cfg.yMin ≤ (t : ℚ) := by
      intro t ht
      rcases hDE with h | h
      · exact hyMinLt t (by omega)
      · exfalso
        omega
    have hNWρ : ∀ t : ℤ, (scanContour cfg c).yMinW < t ∧ t ≤ pyInt cfg.yMax →
        cfg.yMin ≤ (t : ℚ) := by
      intro t ht
      rcases hDW with h | h
      · exact hyMinLt t (by omega)
      · exfalso
        omega
    simp only [scanOne, hcw, if_true]
    refine ⟨h1, h2, h3, h4, h5, h6, h7, h8, ?_, ?_, ?_, ?_⟩
    · exact combine_CornSE cfg g (scanContour cfg c) hS h2
        (hgE.monoRho (fun t ht => ht.2.2)) gSE
    · exact combine_CornSW cfg g (scanContour cfg c) hS h4
        (hgW.monoPred (fun t ht => ht.2.2)) gSW
    · exact combine_CornNE cfg g (scanContour cfg c) hS
        (hgNE.monoRho hNEρ) (hgE.monoRho (fun _ _ => trivial)) gNE
    · exact combine_CornNW cfg g (scanContour cfg c) hS
        (hgNW.monoPred hNWρ) (hgW.monoPred (fun _ _ => trivial)) gNW
  · simpa [scanOne, hcw] using hg

/-- The glyph invariant holds after scanning all contours. -/
lemma scanGlyph_GlyphInv (cfg : Config) (cs : List Contour) (hS : Sane cfg)
    (hbox : ∀ c ∈ cs, InBox cfg c) : GlyphInv cfg (scanGlyph cfg cs) := by
  have H : ∀ (l : List Contour), (∀ c ∈ l, InBox cfg c) → ∀ g : Glyph, GlyphInv cfg g →
      GlyphInv cfg (l.foldl (scanOne cfg) g) := by
    intro l
    induction l with
    | nil => exact fun _ g hg => hg
    | cons d l ihl =>
      intro hb g hg
      exact ihl (fun x hx => hb x (List.mem_cons_of_mem d hx)) (scanOne cfg g d)
        (scanOne_GlyphInv cfg g d hS (hb d (List.mem_cons_self d l)) hg)
  exact H cs hbox Glyph.start (start_GlyphInv cfg)

/-! ## Decoding `finish` and the emission wrappers -/

/-- An accepted `finish` call implies the combined x passed the sentinel
test. -/
lemma finish_not_sentinel (cfg : Config) (c : Cutout)
    (hacc : (c.finish cfg).2 = true) : ¬ |c.cx| = ((MAX : ℤ) : ℚ) := by
  intro h
  unfold Cutout.finish at hacc
  rw [if_pos h] at hacc
  simp at hacc

/-- Decoding an accepted `finish` call of the SE cutout (`dx = -1`,
`dy = 1`): the shrink amounts are integers of size at least one, the
inner corner moves off the combined corner by them, and both post-shrink
extents clear the thresholds. -/
lemma finish_SE_accept (cfg : Config) (c : Cutout) (hS : Sane cfg)
    (hdx : c.dx = -1) (hdy : c.dy = 1) (hacc : (c.finish cfg).2 = true) :
    ∃ s t : ℤ, 1 ≤ s ∧ 1 ≤ t ∧
      (c.finish cfg).1.x = c.cx + (s : ℚ) ∧
      (c.finish cfg).1.y = c.cy - (t : ℚ) ∧
      (cfg.widthMin : ℚ) ≤ cfg.xMax - c.cx - (s : ℚ) ∧
      (cfg.heightMin : ℚ) ≤ c.cy - cfg.yMin - (t : ℚ) ∧
      ¬ |c.cx| = ((MAX : ℤ) : ℚ) := by
  have h := finish_not_sentinel cfg c hacc
  have hext : c.extent cfg c.cx c.cy = (cfg.xMax - c.cx, c.cy - cfg.yMin) := by
    unfold Cutout.extent
    rw [hdx, hdy]
    norm_num
  unfold Cutout.finish at hacc ⊢
  rw [if_neg h, hext] at hacc ⊢
  dsimp only at hacc ⊢
  rw [Bool.and_eq_true, decide_eq_true_eq, decide_eq_true_eq] at hacc
  rw [hdx, hdy]
  exact ⟨max (pyInt ((cfg.xMax - c.cx) * cfg.shrinkBy)) cfg.shrinkMin,
         max (pyInt ((c.cy - cfg.yMin) * cfg.shrinkBy)) cfg.shrinkMin,
         le_trans hS.spos (le_max_right _ _), le_trans hS.spos (le_max_right _ _),
         by push_cast; ring, by push_cast; ring, hacc.1, hacc.2, h⟩

/-- Decoding an accepted `finish` call of the SW cutout (`dx = 1`,
`dy = 1`). -/
lemma finish_SW_accept (cfg : Config) (c : Cutout) (hS : Sane cfg)
    (hdx : c.dx = 1) (hdy : c.dy = 1) (hacc : (c.finish cfg).2 = true) :
    ∃ s t : ℤ, 1 ≤ s ∧ 1 ≤ t ∧
      (c.finish cfg).1.x = c.cx - (s : ℚ) ∧
      (c.finish cfg).1.y = c.cy - (t : ℚ) ∧
      (cfg.widthMin : ℚ) ≤ c.cx - cfg.xMin - (s : ℚ) ∧
      (cfg.heightMin : ℚ) ≤ c.cy - cfg.yMin - (t : ℚ) ∧
      ¬ |c.cx| = ((MAX : ℤ) : ℚ) := by
  have h := finish_not_sentinel cfg c hacc
  have hext : c.extent cfg c.cx c.cy = (c.cx - cfg.xMin, c.cy - cfg.yMin) := by
    unfold Cutout.extent
    rw [hdx, hdy]
    norm_num
  unfold Cutout.finish at hacc ⊢
  rw [if_neg h, hext] at hacc ⊢
  dsimp only at hacc ⊢
  rw [Bool.and_eq_true, decide_eq_true_eq, decide_eq_true_eq] at hacc
  rw [hdx, hdy]
  exact ⟨max (pyInt ((c.cx - cfg.xMin) * cfg.shrinkBy)) cfg.shrinkMin,
         max (pyInt ((c.cy - cfg.yMin) * cfg.shrinkBy)) cfg.shrinkMin,
         le_trans hS.spos (le_max_right _ _), le_trans hS.spos (le_max_right _ _),
         by push_cast; ring, by push_cast; ring, hacc.1, hacc.2, h⟩

/-- Decoding an accepted `finish` call of the NE cutout (`dx = -1`,
`dy = -1`). -/
lemma finish_NE_accept (cfg : Config) (c : Cutout) (hS : Sane cfg)
    (hdx : c.dx = -1) (hdy : c.dy = -1) (hacc : (c.finish cfg).2 = true) :
    ∃ s t : ℤ, 1 ≤ s ∧ 1 ≤ t ∧
      (c.finish cfg).1.x = c.cx + (s : ℚ) ∧
      (c.finish cfg).1.y = c.cy + (t : ℚ) ∧
      (cfg.widthMin : ℚ) ≤ cfg.xMax - c.cx - (s : ℚ) ∧
      (cfg.heightMin : ℚ) ≤ cfg.yMax - c.cy - (t : ℚ) ∧
      ¬ |c.cx| = ((MAX : ℤ) : ℚ) := by
  have h := finish_not_sentinel cfg c hacc
  have hext : c.extent cfg c.cx c.cy = (cfg.xMax - c.cx, cfg.yMax - c.cy) := by
    unfold Cutout.extent
    rw [hdx, hdy]
    norm_num
  unfold Cutout.finish at hacc ⊢
  rw [if_neg h, hext] at hacc ⊢
  dsimp only at hacc ⊢
  rw [Bool.and_eq_true, decide_eq_true_eq, decide_eq_true_eq] at hacc
  rw [hdx, hdy]
  exact ⟨max (pyInt ((cfg.xMax - c.cx) * cfg.shrinkBy)) cfg.shrinkMin,
         max (pyInt ((cfg.yMax - c.cy) * cfg.shrinkBy)) cfg.shrinkMin,
         le_trans hS.spos (le_max_right _ _), le_trans hS.spos (le_max_right _ _),
         by push_cast; ring, by push_cast; ring, hacc.1, hacc.2, h⟩

/-- Decoding an accepted `finish` call of the NW cutout (`dx = 1`,
`dy = -1`). -/
lemma finish_NW_accept (cfg : Config) (c : Cutout) (hS : Sane cfg)
    (hdx : c.dx = 1) (hdy : c.dy = -1) (hacc : (c.finish cfg).2 = true) :
    ∃ s t : ℤ, 1 ≤ s ∧ 1 ≤ t ∧
      (c.finish cfg).1.x = c.cx - (s : ℚ) ∧
      (c.finish cfg).1.y = c.cy + (t : ℚ) ∧
      (cfg.widthMin : ℚ) ≤ c.cx - cfg.xMin - (s : ℚ) ∧
      (cfg.heightMin : ℚ) ≤ cfg.yMax - c.cy - (t : ℚ) ∧
      ¬ |c.cx| = ((MAX : ℤ) : ℚ) := by
  have h := finish_not_sentinel cfg c hacc
  have hext : c.extent cfg c.cx c.cy = (c.cx - cfg.xMin, cfg.yMax - c.cy) := by
    unfold Cutout.extent
    rw [hdx, hdy]
    norm_num
  unfold Cutout.finish at hacc ⊢
  rw [if_neg h, hext] at hacc ⊢
  dsimp only at hacc ⊢
  rw [Bool.and_eq_true, decide_eq_true_eq, decide_eq_true_eq] at hacc
  rw [hdx, hdy]
  exact ⟨max (pyInt ((c.cx - cfg.xMin) * cfg.shrinkBy)) cfg.shrinkMin,
         max (pyInt ((cfg.yMax - c.cy) * cfg.shrinkBy)) cfg.shrinkMin,
         le_trans hS.spos (le_max_right _ _), le_trans hS.spos (le_max_right _ _),
         by push_cast; ring, by push_cast; ring, hacc.1, hacc.2, h⟩

/-- A successful NE emission decodes into the acceptance flag and the
four concrete pen points. -/
lemma emitNE_some (cfg : Config) (c : Cutout) (pts : List (ℚ × ℚ))
    (h : emitNE cfg c = some pts) :
    (c.finish cfg).2 = true ∧
    pts = [((c.finish cfg).1.x, (c.finish cfg).1.y),
           ((c.finish cfg).1.x, cfg.yMax), (cfg.xMax, cfg.yMax),
           (cfg.xMax, (c.finish cfg).1.y)] := by
  unfold emitNE at h
  dsimp only at h
  by_cases hf : (c.finish cfg).2 = true
  · rw [if_pos hf] at h
    exact ⟨hf, (Option.some.inj h).symm⟩
  · rw [if_neg hf] at h
    exact absurd h (by simp)

/-- A successful NW emission decodes into the acceptance flag and the
four concrete pen points. -/
lemma emitNW_some (cfg : Config) (c : Cutout) (pts : List (ℚ × ℚ))
    (h : emitNW cfg c = some pts) :
    (c.finish cfg).2 = true ∧
    pts = [((c.finish cfg).1.x, (c.finish cfg).1.y),
           (cfg.xMin, (c.finish cfg).1.y), (cfg.xMin, cfg.yMax),
           ((c.finish cfg).1.x, cfg.yMax)] := by
  unfold emitNW at h
  dsimp only at h
  by_cases hf : (c.finish cfg).2 = true
  · rw [if_pos hf] at h
    exact ⟨hf, (Option.some.inj h).symm⟩
  · rw [if_neg hf] at h
    exact absurd h (by simp)

/-- A successful SE emission decodes into the acceptance flag and the
four concrete pen points. -/
lemma emitSE_some (cfg : Config) (c : Cutout) (pts : List (ℚ × ℚ))
    (h : emitSE cfg c = some pts) :
    (c.finish cfg).2 = true ∧
    pts = [((c.finish cfg).1.x, (c.finish cfg).1.y),
           (cfg.xMax, (c.finish cfg).1.y), (cfg.xMax, cfg.yMin),
           ((c.finish cfg).1.x, cfg.yMin)] := by
  unfold emitSE at h
  dsimp only at h
  by_cases hf : (c.finish cfg).2 = true
  · rw [if_pos hf] at h
    exact ⟨hf, (Option.some.inj h).symm⟩
  · rw [if_neg hf] at h
    exact absurd h (by simp)

/-- A successful SW emission decodes into the acceptance flag and the
four concrete pen points. -/
lemma emitSW_some (cfg : Config) (c : Cutout) (pts : List (ℚ × ℚ))
    (h : emitSW cfg c = some pts) :
    (c.finish cfg).2 = true ∧
    pts = [((c.finish cfg).1.x, (c.finish cfg).1.y),
           ((c.finish cfg).1.x, cfg.yMin), (cfg.xMin, cfg.yMin),
           (cfg.xMin, (c.finish cfg).1.y)] := by
  unfold emitSW at h
  dsimp only at h
  by_cases hf : (c.finish cfg).2 = true
  · rw [if_pos hf] at h
    exact ⟨hf, (Option.some.inj h).symm⟩
  · rw [if_neg hf] at h
    exact absurd h (by simp)

/-! ## Fold bounds on the combined corners -/

/-- The glyph-level combined SE y is at most the SE candidate y of any
qualifying contour. -/
lemma scanGlyph_se_cy_le (cfg : Config) (cs : List Contour) (j : Contour)
    (hj : j ∈ cs) (hcw : j.clockwise = true) :
    (scanGlyph cfg cs).se.cy ≤ (scanContour cfg j).se.y := by
  obtain ⟨l1, l2, rfl⟩ := List.append_of_mem hj
  have mono : ∀ (l : List Contour) (g : Glyph),
      (l.foldl (scanOne cfg) g).se.cy ≤ g.se.cy := by
    intro l
    induction l with
    | nil => exact fun g => le_rfl
    | cons d l ih =>
      intro g
      refine le_trans (ih (scanOne cfg g d)) ?_
      unfold scanOne
      split_ifs with hd
      · exact min_le_left _ _
      · exact le_rfl
  unfold scanGlyph
  rw [List.foldl_append, List.foldl_cons]
  refine le_trans (mono l2 _) ?_
  unfold scanOne
  rw [if_pos hcw]
  exact min_le_right _ _

/-- The glyph-level combined SW y is at most the SW candidate y of any
qualifying contour. -/
lemma scanGlyph_sw_cy_le (cfg : Config) (cs : List Contour) (j : Contour)
    (hj : j ∈ cs) (hcw : j.clockwise = true) :
    (scanGlyph cfg cs).sw.cy ≤ (scanContour cfg j).sw.y := by
  obtain ⟨l1, l2, rfl⟩ := List.append_of_mem hj
  have mono : ∀ (l : List Contour) (g : Glyph),
      (l.foldl (scanOne cfg) g).sw.cy ≤ g.sw.cy := by
    intro l
    induction l with
    | nil => exact fun g => le_rfl
    | cons d l ih =>
      intro g
      refine le_trans (ih (scanOne cfg g d)) ?_
      unfold scanOne
      split_ifs with hd
      · exact min_le_left _ _
      · exact le_rfl
  unfold scanGlyph
  rw [List.foldl_append, List.foldl_cons]
  refine le_trans (mono l2 _) ?_
  unfold scanOne
  rw [if_pos hcw]
  exact min_le_right _ _

/-- The glyph-level combined NE y is at least the genuine NE candidate y
of any qualifying contour whose NE best area is nonzero. -/
lemma scanGlyph_ne_cy_ge (cfg : Config) (cs : List Contour) (j : Contour)
    (hj : j ∈ cs) (hcw : j.clockwise = true)
    (ha : ¬ (scanContour cfg j).ne.area = 0) :
    (scanContour cfg j).ne.y ≤ (scanGlyph cfg cs).ne.cy := by
  obtain ⟨l1, l2, rfl⟩ := List.append_of_mem hj
  have mono : ∀ (l : List Contour) (g : Glyph),
      g.ne.cy ≤ (l.foldl (scanOne cfg) g).ne.cy := by
    intro l
    induction l with
    | nil => exact fun g => le_rfl
    | cons d l ih =>
      intro g
      refine le_trans ?_ (ih (scanOne cfg g d))
      unfold scanOne
      split_ifs with hd
      · exact le_max_left _ _
      · exact le_rfl
  unfold scanGlyph
  rw [List.foldl_append, List.foldl_cons]
  refine le_trans ?_ (mono l2 _)
  unfold scanOne
  rw [if_pos hcw]
  refine le_trans ?_ (le_max_right _ _)
  rw [if_neg ha]

/-- The glyph-level combined NW y is at least the genuine NW candidate y
of any qualifying contour whose NW best area is nonzero. -/
lemma scanGlyph_nw_cy_ge (cfg : Config) (cs : List Contour) (j : Contour)
    (hj : j ∈ cs) (hcw : j.clockwise = true)
    (ha : ¬ (scanContour cfg j).nw.area = 0) :
    (scanContour cfg j).nw.y ≤ (scanGlyph cfg cs).nw.cy := by
  obtain ⟨l1, l2, rfl⟩ := List.append_of_mem hj
  have mono : ∀ (l : List Contour) (g : Glyph),
      g.nw.cy ≤ (l.foldl (scanOne cfg) g).nw.cy := by
    intro l
    induction l with
    | nil => exact fun g => le_rfl
    | cons d l ih =>
      intro g
      refine le_trans ?_ (ih (scanOne cfg g d))
      unfold scanOne
      split_ifs with hd
      · exact le_max_left _ _
      · exact le_rfl
  unfold scanGlyph
  rw [List.foldl_append, List.foldl_cons]
  refine le_trans ?_ (mono l2 _)
  unfold scanOne
  rw [if_pos hcw]
  refine le_trans ?_ (le_max_right _ _)
  rw [if_neg ha]

/-! ## Emission properties per corner -/

/-- Properties of an emitted SE rectangle: the point list is
well-formed, its inner corner has integer coordinates, and its y (the
rectangle's top edge) lies strictly below the combined SE y. -/
lemma emitSE_props (cfg : Config) (c : Cutout) (hS : Sane cfg)
    (hdx : c.dx = -1) (hdy : c.dy = 1) (hC : CornSE cfg c)
    (pts : List (ℚ × ℚ)) (h : emitSE cfg c = some pts) :
    rectOK cfg cfg.xMax cfg.yMin pts ∧
    (∃ a b : ℤ, pts.head? = some ((a : ℚ), (b : ℚ))) ∧
    (∀ x y : ℚ, pts.head? = some (x, y) → y + 1 ≤ c.cy) := by
  obtain ⟨hacc, hpts⟩ := emitSE_some cfg c pts h
  obtain ⟨s, t, hs, ht, hx, hy, hw, hh, hsen⟩ := finish_SE_accept cfg c hS hdx hdy hacc
  have hreal : cfg.xMin ≤ c.cx ∧ c.cx ≤ cfg.xMax - (cfg.widthMin : ℚ) ∧ isInt c.cx ∧
      isInt c.cy ∧ c.cy ≤ ((pyInt cfg.yMax : ℤ) : ℚ) := by
    rcases hC with ⟨h1, _⟩ | hr
    · exfalso
      apply hsen
      rw [h1]
      unfold MAXq
      rw [abs_neg]
      exact abs_of_pos (by decide)
    · exact hr
  obtain ⟨hcx1, hcx2, ⟨nx, hnx⟩, ⟨ny, hny⟩, hcy⟩ := hreal
  have hsq : (1 : ℚ) ≤ (s : ℚ) := by exact_mod_cast hs
  have htq : (1 : ℚ) ≤ (t : ℚ) := by exact_mod_cast ht
  have hwq : (0 : ℚ) < (cfg.widthMin : ℚ) := by exact_mod_cast hS.wpos
  have hhq : (0 : ℚ) < (cfg.heightMin : ℚ) := by exact_mod_cast hS.hpos
  have hpm := pyInt_lt_add_one cfg.yMax
  have hfx1 : cfg.xMin < (c.finish cfg).1.x := by rw [hx]; linarith
  have hfx2 : (c.finish cfg).1.x < cfg.xMax := by rw [hx]; linarith
  have hfy1 : cfg.yMin < (c.finish cfg).1.y := by rw [hy]; linarith
  have hfy2 : (c.finish cfg).1.y < cfg.yMax := by rw [hy]; linarith
  have hxne : ¬ (c.finish cfg).1.x = cfg.xMax := ne_of_lt hfx2
  have hyne : ¬ (c.finish cfg).1.y = cfg.yMin := ne_of_gt hfy1
  subst hpts
  refine ⟨⟨⟨_, _, rfl, le_of_lt hfx1, le_of_lt hfx2, le_of_lt hfy1, le_of_lt hfy2⟩,
      rfl, ?_, ?_⟩, ?_, ?_⟩
  · simp [List.filter, hxne]
  · simp [List.filter, hyne]
  · refine ⟨nx + s, ny - t, ?_⟩
    have e1 : (c.finish cfg).1.x = ((nx + s : ℤ) : ℚ) := by
      rw [hx, hnx]; push_cast; ring
    have e2 : (c.finish cfg).1.y = ((ny - t : ℤ) : ℚ) := by
      rw [hy, hny]; push_cast; ring
    rw [List.head?_cons, e1, e2]
  · intro x y hxy
    rw [List.head?_cons, Option.some.injEq, Prod.mk.injEq] at hxy
    rw [← hxy.2, hy]
    linarith

/-- Properties of an emitted SW rectangle. -/
lemma emitSW_props (cfg : Config) (c : Cutout) (hS : Sane cfg)
    (hdx : c.dx = 1) (hdy : c.dy = 1) (hC : CornSW cfg c)
    (pts : List (ℚ × ℚ)) (h : emitSW cfg c = some pts) :
    rectOK cfg cfg.xMin cfg.yMin pts ∧
    (∃ a b : ℤ, pts.head? = some ((a : ℚ), (b : ℚ))) ∧
    (∀ x y : ℚ, pts.head? = some (x, y) → y + 1 ≤ c.cy) := by
  obtain ⟨hacc, hpts⟩ := emitSW_some cfg c pts h
  obtain ⟨s, t, hs, ht, hx, hy, hw, hh, hsen⟩ := finish_SW_accept cfg c hS hdx hdy hacc
  have hreal : cfg.xMin + (cfg.widthMin : ℚ) ≤ c.cx ∧ c.cx ≤ cfg.xMax ∧ isInt c.cx ∧
      isInt c.cy ∧ c.cy ≤ ((pyInt cfg.yMax : ℤ) : ℚ) := by
    rcases hC with ⟨h1, _⟩ | hr
    · exfalso
      apply hsen
      rw [h1]
      unfold MAXq
      exact abs_of_pos (by decide)
    · exact hr
  obtain ⟨hcx1, hcx2, ⟨nx, hnx⟩, ⟨ny, hny⟩, hcy⟩ := hreal
  have hsq : (1 : ℚ) ≤ (s : ℚ) := by exact_mod_cast hs
  have htq : (1 : ℚ) ≤ (t : ℚ) := by exact_mod_cast ht
  have hwq : (0 : ℚ) < (cfg.widthMin : ℚ) := by exact_mod_cast hS.wpos
  have hhq : (0 : ℚ) < (cfg.heightMin : ℚ) := by exact_mod_cast hS.hpos
  have hpm := pyInt_lt_add_one cfg.yMax
  have hfx1 : cfg.xMin < (c.finish cfg).1.x := by rw [hx]; linarith
  have hfx2 : (c.finish cfg).1.x < cfg.xMax := by rw [hx]; linarith
  have hfy1 : cfg.yMin < (c.finish cfg).1.y := by rw [hy]; linarith
  have hfy2 : (c.finish cfg).1.y < cfg.yMax := by rw [hy]; linarith
  have hxne : ¬ (c.finish cfg).1.x = cfg.xMin := ne_of_gt hfx1
  have hyne : ¬ (c.finish cfg).1.y = cfg.yMin := ne_of_gt hfy1
  subst hpts
  refine ⟨⟨⟨_, _, rfl, le_of_lt hfx1, le_of_lt hfx2, le_of_lt hfy1, le_of_lt hfy2⟩,
      rfl, ?_, ?_⟩, ?_, ?_⟩
  · simp [List.filter, hxne]
  · simp [List.filter, hyne]
  · refine ⟨nx - s, ny - t, ?_⟩
    have e1 : (c.finish cfg).1.x = ((nx - s : ℤ) : ℚ) := by
      rw [hx, hnx]; push_cast; ring
    have e2 : (c.finish cfg).1.y = ((ny - t : ℤ) : ℚ) := by
      rw [hy, hny]; push_cast; ring
    rw [List.head?_cons, e1, e2]
  · intro x y hxy
    rw [List.head?_cons, Option.some.injEq, Prod.mk.injEq] at hxy
    rw [← hxy.2, hy]
    linarith

/-- Properties of an emitted NE rectangle: the point list is
well-formed, the inner x is an integer, the inner y is an integer
whenever the bbox's `yMin` is, and the inner y (the rectangle's bottom
edge) lies strictly above the combined NE y. -/
lemma emitNE_props (cfg : Config) (c : Cutout) (hS : Sane cfg)
    (hdx : c.dx = -1) (hdy : c.dy = -1) (hC : CornNE cfg c)
    (pts : List (ℚ × ℚ)) (h : emitNE cfg c = some pts) :
    rectOK cfg cfg.xMax cfg.yMax pts ∧
    (∃ a : ℤ, ∃ b : ℚ, pts.head? = some ((a : ℚ), b)) ∧
    (isInt cfg.yMin → ∃ a b : ℤ, pts.head? = some ((a : ℚ), (b : ℚ))) ∧
    (∀ x y : ℚ, pts.head? = some (x, y) → c.cy + 1 ≤ y) := by
  obtain ⟨hacc, hpts⟩ := emitNE_some cfg c pts h
  obtain ⟨s, t, hs, ht, hx, hy, hw, hh, hsen⟩ := finish_NE_accept cfg c hS hdx hdy hacc
  have hcxne : ¬ c.cx = -MAXq := by
    intro h1
    apply hsen
    rw [h1]
    unfold MAXq
    rw [abs_neg]
    exact abs_of_pos (by decide)
  obtain ⟨hX, hY, hcoup⟩ := hC
  have hxreal : cfg.xMin ≤ c.cx ∧ c.cx ≤ cfg.xMax - (cfg.widthMin : ℚ) ∧ isInt c.cx := by
    rcases hX with h1 | hr
    · exact absurd h1 hcxne
    · exact hr
  have hyreal : IntOrEq cfg.yMin c.cy ∧ cfg.yMin ≤ c.cy := by
    rcases hY with h1 | hr
    · exact absurd h1 (hcoup hcxne)
    · exact hr
  obtain ⟨hcx1, hcx2, ⟨nx, hnx⟩⟩ := hxreal
  obtain ⟨hint, hcy1⟩ := hyreal
  have hsq : (1 : ℚ) ≤ (s : ℚ) := by exact_mod_cast hs
  have htq : (1 : ℚ) ≤ (t : ℚ) := by exact_mod_cast ht
  have hwq : (0 : ℚ) < (cfg.widthMin : ℚ) := by exact_mod_cast hS.wpos
  have hhq : (0 : ℚ) < (cfg.heightMin : ℚ) := by exact_mod_cast hS.hpos
  have hfx1 : cfg.xMin < (c.finish cfg).1.x := by rw [hx]; linarith
  have hfx2 : (c.finish cfg).1.x < cfg.xMax := by rw [hx]; linarith
  have hfy1 : cfg.yMin < (c.finish cfg).1.y := by rw [hy]; linarith
  have hfy2 : (c.finish cfg).1.y < cfg.yMax := by rw [hy]; linarith
  have hxne : ¬ (c.finish cfg).1.x = cfg.xMax := ne_of_lt hfx2
  have hyne : ¬ (c.finish cfg).1.y = cfg.yMax := ne_of_lt hfy2
  subst hpts
  refine ⟨⟨⟨_, _, rfl, le_of_lt hfx1, le_of_lt hfx2, le_of_lt hfy1, le_of_lt hfy2⟩,
      rfl, ?_, ?_⟩, ?_, ?_, ?_⟩
  · simp [List.filter, hxne]
  · simp [List.filter, hyne]
  · refine ⟨nx + s, (c.finish cfg).1.y, ?_⟩
    have e1 : (c.finish cfg).1.x = ((nx + s : ℤ) : ℚ) := by
      rw [hx, hnx]; push_cast; ring
    rw [List.head?_cons, e1]
  · intro hYint
    rcases hint with ⟨ny, hny⟩ | hny
    · refine ⟨nx + s, ny + t, ?_⟩
      have e1 : (c.finish cfg).1.x = ((nx + s : ℤ) : ℚ) := by
        rw [hx, hnx]; push_cast; ring
      have e2 : (c.finish cfg).1.y = ((ny + t : ℤ) : ℚ) := by
        rw [hy, hny]; push_cast; ring
      rw [List.head?_cons, e1, e2]
    · obtain ⟨ny, hny2⟩ := hYint
      refine ⟨nx + s, ny + t, ?_⟩
      have e1 : (c.finish cfg).1.x = ((nx + s : ℤ) : ℚ) := by
        rw [hx, hnx]; push_cast; ring
      have e2 : (c.finish cfg).1.y = ((ny + t : ℤ) : ℚ) := by
        rw [hy, hny, hny2]; push_cast; ring
      rw [List.head?_cons, e1, e2]
  · intro x y hxy
    rw [List.head?_cons, Option.some.injEq, Prod.mk.injEq] at hxy
    rw [← hxy.2, hy]
    linarith

/-- Properties of an emitted NW rectangle. -/
lemma emitNW_props (cfg : Config) (c : Cutout) (hS : Sane cfg)
    (hdx : c.dx = 1) (hdy : c.dy = -1) (hC : CornNW cfg c)
    (pts : List (ℚ × ℚ)) (h : emitNW cfg c = some pts) :
    rectOK cfg cfg.xMin cfg.yMax pts ∧
    (∃ a : ℤ, ∃ b : ℚ, pts.head? = some ((a : ℚ), b)) ∧
    (isInt cfg.yMin → ∃ a b : ℤ, pts.head? = some ((a : ℚ), (b : ℚ))) ∧
    (∀ x y : ℚ, pts.head? = some (x, y) → c.cy + 1 ≤ y) := by
  obtain ⟨hacc, hpts⟩ := emitNW_some cfg c pts h
  obtain ⟨s, t, hs, ht, hx, hy, hw, hh, hsen⟩ := finish_NW_accept cfg c hS hdx hdy hacc
  have hcxne : ¬ c.cx = MAXq := by
    intro h1
    apply hsen
    rw [h1]
    unfold MAXq
    exact abs_of_pos (by decide)
  obtain ⟨hX, hY, hcoup⟩ := hC
  have hxreal : cfg.xMin + (cfg.widthMin : ℚ) ≤ c.cx ∧ c.cx ≤ cfg.xMax ∧ isInt c.cx := by
    rcases hX with h1 | hr
    · exact absurd h1 hcxne
    · exact hr
  have hyreal : IntOrEq cfg.yMin c.cy ∧ cfg.yMin ≤ c.cy := by
    rcases hY with h1 | hr
    · exact absurd h1 (hcoup hcxne)
    · exact hr
  obtain ⟨hcx1, hcx2, ⟨nx, hnx⟩⟩ := hxreal
  obtain ⟨hint, hcy1⟩ := hyreal
  have hsq : (1 : ℚ) ≤ (s : ℚ) := by exact_mod_cast hs
  have htq : (1 : ℚ) ≤ (t : ℚ) := by exact_mod_cast ht
  have hwq : (0 : ℚ) < (cfg.widthMin : ℚ) := by exact_mod_cast hS.wpos
  have hhq : (0 : ℚ) < (cfg.heightMin : ℚ) := by exact_mod_cast hS.hpos
  have hfx1 : cfg.xMin < (c.finish cfg).1.x := by rw [hx]; linarith
  have hfx2 : (c.finish cfg).1.x < cfg.xMax := by rw [hx]; linarith
  have hfy1 : cfg.yMin < (c.finish cfg).1.y := by rw [hy]; linarith
  have hfy2 : (c.finish cfg).1.y < cfg.yMax := by rw [hy]; linarith
  have hxne : ¬ (c.finish cfg).1.x = cfg.xMin := ne_of_gt hfx1
  have hyne : ¬ (c.finish cfg).1.y = cfg.yMax := ne_of_lt hfy2
  subst hpts
  refine ⟨⟨⟨_, _, rfl, le_of_lt hfx1, le_of_lt hfx2, le_of_lt hfy1, le_of_lt hfy2⟩,
      rfl, ?_, ?_⟩, ?_, ?_, ?_⟩
  · simp [List.filter, hxne]
  · simp [List.filter, hyne]
  · refine ⟨nx - s, (c.finish cfg).1.y, ?_⟩
    have e1 : (c.finish cfg).1.x = ((nx - s : ℤ) : ℚ) := by
      rw [hx, hnx]; push_cast; ring
    rw [List.head?_cons, e1]
  · intro hYint
    rcases hint with ⟨ny, hny⟩ | hny
    · refine ⟨nx - s, ny + t, ?_⟩
      have e1 : (c.finish cfg).1.x = ((nx - s : ℤ) : ℚ) := by
        rw [hx, hnx]; push_cast; ring
      have e2 : (c.finish cfg).1.y = ((ny + t : ℤ) : ℚ) := by
        rw [hy, hny]; push_cast; ring
      rw [List.head?_cons, e1, e2]
    · obtain ⟨ny, hny2⟩ := hYint
      refine ⟨nx - s, ny + t, ?_⟩
      have e1 : (c.finish cfg).1.x = ((nx - s : ℤ) : ℚ) := by
        rw [hx, hnx]; push_cast; ring
      have e2 : (c.finish cfg).1.y = ((ny + t : ℤ) : ℚ) := by
        rw [hy, hny, hny2]; push_cast; ring
      rw [List.head?_cons, e1, e2]
  · intro x y hxy
    rw [List.head?_cons, Option.some.injEq, Prod.mk.injEq] at hxy
    rw [← hxy.2, hy]
    linarith

/-! ## Concrete sanity facts for witnesses -/

/-- The em-200 configuration is sane. -/
lemma sane_cfg200 : Sane cfg200 := by
  constructor <;> decide

/-- The `ctSym` contour lies inside the bbox of `cfg200`. -/
lemma inbox_ctSym : InBox cfg200 ctSym := by
  intro y p hp
  simp only [ctSym] at hp
  split_ifs at hp with h1 h2
  · obtain rfl := Option.some.inj hp
    decide
  · obtain rfl := Option.some.inj hp
    decide

/-- Singleton-list form of `inbox_ctSym`. -/
lemma inbox_ctSym_list : ∀ c ∈ [ctSym], InBox cfg200 c := by
  intro c hc
  rw [List.mem_singleton] at hc
  subst hc
  exact inbox_ctSym

/-! ## C2 -/

/-- C2 is refuted: on the glyph `cfg200` with the single contour
`ctHalf`, both the SE and the NE rectangle are emitted, yet the SE
rectangle's top edge (y = 17) lies strictly above the NE rectangle's
bottom edge (y = 3): the two east rectangles overlap vertically on rows
3..17.  The overlap is caused by the NE area-gated fallback, which
anchors the NE candidate at `yMin` although the SE rectangle spans the
full bbox height. -/
theorem c2_counterexample :
    ∃ ptsS ptsN : List (ℚ × ℚ), ∃ xs ys xn yn : ℚ,
      (cutoutRects cfg200 [ctHalf]).2.2.1 = some ptsS ∧
      (cutoutRects cfg200 [ctHalf]).1 = some ptsN ∧
      ptsS.head? = some (xs, ys) ∧ ptsN.head? = some (xn, yn) ∧
      yn < ys :=
  ⟨[(13, 17), (20, 17), (20, 0), (13, 0)],
   [(13, 3), (13, 20), (20, 20), (20, 3)],
   13, 17, 13, 3, by decide, by decide, rfl, rfl, by decide⟩

/-- C2 (amended): the north/south non-overlap holds on each side for
every glyph that has a qualifying contour `j` whose south accumulator on
that side recorded a genuine candidate (its best x is not the reset
sentinel) and whose north accumulator on that side found a nonzero best
area (so the combined north y is not produced by the fallback): then,
whenever both rectangles of that side are emitted, the south rectangle's
top edge lies strictly below the north rectangle's bottom edge. -/
theorem c2_no_overlap (cfg : Config) (cs : List Contour) (hS : Sane cfg)
    (hbox : ∀ c ∈ cs, InBox cfg c) (j : Contour) (hj : j ∈ cs)
    (hcw : j.clockwise = true) :
    (¬ (scanContour cfg j).se.x = -MAXq → ¬ (scanContour cfg j).ne.area = 0 →
      ∀ ptsS ptsN : List (ℚ × ℚ),
        (cutoutRects cfg cs).2.2.1 = some ptsS →
        (cutoutRects cfg cs).1 = some ptsN →
        ∀ xs ys xn yn : ℚ, ptsS.head? = some (xs, ys) →
          ptsN.head? = some (xn, yn) → ys < yn) ∧
    (¬ (scanContour cfg j).sw.x = MAXq → ¬ (scanContour cfg j).nw.area = 0 →
      ∀ ptsS ptsN : List (ℚ × ℚ),
        (cutoutRects cfg cs).2.2.2 = some ptsS →
        (cutoutRects cfg cs).2.1 = some ptsN →
        ∀ xs ys xn yn : ℚ, ptsS.head? = some (xs, ys) →
          ptsN.head? = some (xn, yn) → ys < yn) := by
  obtain ⟨d1, d2, d3, d4, d5, d6, d7, d8, hSE, hSW, hNE, hNW⟩ :=
    scanGlyph_GlyphInv cfg cs hS hbox
  obtain ⟨e1, e2, e3, e4, e5, e6, e7, e8, hgE, hgW, hgNE, hgNW, hDE, hDW, hEE, hEW⟩ :=
    scanContour_good cfg j hS (hbox j hj)
  constructor
  · intro hsx hna ptsS ptsN hS1 hN1 xs ys xn yn hSh hNh
    obtain ⟨-, -, hbE⟩ := hgE
    obtain ⟨-, -, hbNE⟩ := hgNE
    have hseY : ∃ r : ℤ, (scanContour cfg j).se.y = (r : ℚ) ∧
        r ≤ (scanContour cfg j).yMinE := by
      rcases hbE with ⟨hx0, -, -⟩ | ⟨-, -, -, r, hr, hρ⟩
      · exact absurd hx0 hsx
      · exact ⟨r, hr, hρ.2.1⟩
    have hneY : ∃ r : ℤ, (scanContour cfg j).ne.y = (r : ℚ) ∧
        (scanContour cfg j).yMinE < r := by
      rcases hbNE with ⟨-, -, hz⟩ | ⟨-, -, -, r, hr, hρ⟩
      · exact absurd hz hna
      · exact ⟨r, hr, hρ.1⟩
    obtain ⟨rs, hrs, hrs2⟩ := hseY
    obtain ⟨rn, hrn, hrn2⟩ := hneY
    have hclo : (scanGlyph cfg cs).se.cy ≤ (rs : ℚ) := by
      rw [← hrs]
      exact scanGlyph_se_cy_le cfg cs j hj hcw
    have hchi : (rn : ℚ) ≤ (scanGlyph cfg cs).ne.cy := by
      rw [← hrn]
      exact scanGlyph_ne_cy_ge cfg cs j hj hcw hna
    have h1 := (emitSE_props cfg (scanGlyph cfg cs).se hS d1 d2 hSE ptsS hS1).2.2 xs ys hSh
    have h2 := (emitNE_props cfg (scanGlyph cfg cs).ne hS d5 d6 hNE ptsN hN1).2.2.2 xn yn hNh
    have hcast : (rs : ℚ) + 1 ≤ (rn : ℚ) := by
      have := Int.add_one_le_iff.mpr (lt_of_le_of_lt hrs2 hrn2)
      exact_mod_cast this
    linarith
  · intro hsx hna ptsS ptsN hS1 hN1 xs ys xn yn hSh hNh
    obtain ⟨-, -, hbW⟩ := hgW
    obtain ⟨-, -, hbNW⟩ := hgNW
    have hswY : ∃ r : ℤ, (scanContour cfg j).sw.y = (r : ℚ) ∧
        r ≤ (scanContour cfg j).yMinW := by
      rcases hbW with ⟨hx0, -, -⟩ | ⟨-, -, -, r, hr, hρ⟩
      · exact absurd hx0 hsx
      · exact ⟨r, hr, hρ.2.1⟩
    have hnwY : ∃ r : ℤ, (scanContour cfg j).nw.y = (r : ℚ) ∧
        (scanContour cfg j).yMinW < r := by
      rcases hbNW with ⟨-, -, hz⟩ | ⟨-, -, -, r, hr, hρ⟩
      · exact absurd hz hna
      · exact ⟨r, hr, hρ.1⟩
    obtain ⟨rs, hrs, hrs2⟩ := hswY
    obtain ⟨rn, hrn, hrn2⟩ := hnwY
    have hclo : (scanGlyph cfg cs).sw.cy ≤ (rs : ℚ) := by
      rw [← hrs]
      exact scanGlyph_sw_cy_le cfg cs j hj hcw
    have hchi : (rn : ℚ) ≤ (scanGlyph cfg cs).nw.cy := by
      rw [← hrn]
      exact scanGlyph_nw_cy_ge cfg cs j hj hcw hna
    have h1 := (emitSW_props cfg (scanGlyph cfg cs).sw hS d3 d4 hSW ptsS hS1).2.2 xs ys hSh
    have h2 := (emitNW_props cfg (scanGlyph cfg cs).nw hS d7 d8 hNW ptsN hN1).2.2.2 xn yn hNh
    have hcast : (rs : ℚ) + 1 ≤ (rn : ℚ) := by
      have := Int.add_one_le_iff.mpr (lt_of_le_of_lt hrs2 hrn2)
      exact_mod_cast this
    linarith

/-- Witness for C2: on `cfg200` with the single contour `ctSym`, both
hypotheses of the east conjunct hold and the emitted SE top edge (y = 6)
lies below the emitted NE bottom edge (y = 14). -/
theorem c2_witness :
    Sane cfg200 ∧ (∀ c ∈ [ctSym], InBox cfg200 c) ∧ ctSym ∈ [ctSym] ∧
    ctSym.clockwise = true ∧
    ¬ (scanContour cfg200 ctSym).se.x = -MAXq ∧
    ¬ (scanContour cfg200 ctSym).ne.area = 0 ∧
    ((6 : ℚ) < 14) := by
  refine ⟨sane_cfg200, inbox_ctSym_list, List.mem_singleton_self _, rfl,
    by decide, by decide, ?_⟩
  exact (c2_no_overlap cfg200 [ctSym] sane_cfg200 inbox_ctSym_list ctSym
      (List.mem_singleton_self _) rfl).1
    (by decide) (by decide)
    [(18, 6), (20, 6), (20, 0), (18, 0)]
    [(3, 14), (3, 20), (20, 20), (20, 14)]
    (by decide) (by decide) 18 6 3 14 rfl rfl

/-! ## C3 -/

/-- C3 is refuted: with the non-integer bbox `yMin = 1/2` of
`cfgHalfY`, the glyph `[ctHalf]` emits an NE rectangle whose inner
corner has the non-integer y coordinate `7/2` — the NE fallback
contributes the raw `yMin` to the combined y, and `finish` only adds an
integer shrink to it. -/
theorem c3_counterexample :
    ∃ pts : List (ℚ × ℚ), (cutoutRects cfgHalfY [ctHalf]).1 = some pts ∧
      ∃ x y : ℚ, pts.head? = some (x, y) ∧ ∀ n : ℤ, ¬ y = (n : ℚ) := by
  refine ⟨[(13, 7/2), (13, 20), (20, 20), (20, 7/2)], by decide, 13, 7/2, rfl, ?_⟩
  intro n hn
  have h2 : (7 : ℚ) = 2 * (n : ℚ) := by
    rw [← hn]
    norm_num
  have h3 : (7 : ℤ) = 2 * n := by exact_mod_cast h2
  omega

/-- C3 (amended): every emitted rectangle's inner corner has an integer
x coordinate; the inner y coordinate is an integer for the two south
rectangles unconditionally, and for the two north rectangles whenever
the bbox's `yMin` is an integer (the north fallback can otherwise leak
the raw non-integer `yMin` into the inner corner). -/
theorem c3_inner_corner_integer (cfg : Config) (cs : List Contour) (hS : Sane cfg)
    (hbox : ∀ c ∈ cs, InBox cfg c) :
    (∀ pts, (cutoutRects cfg cs).2.2.1 = some pts →
      ∃ a b : ℤ, pts.head? = some ((a : ℚ), (b : ℚ))) ∧
    (∀ pts, (cutoutRects cfg cs).2.2.2 = some pts →
      ∃ a b : ℤ, pts.head? = some ((a : ℚ), (b : ℚ))) ∧
    (∀ pts, (cutoutRects cfg cs).1 = some pts →
      ∃ a : ℤ, ∃ b : ℚ, pts.head? = some ((a : ℚ), b)) ∧
    (∀ pts, (cutoutRects cfg cs).2.1 = some pts →
      ∃ a : ℤ, ∃ b : ℚ, pts.head? = some ((a : ℚ), b)) ∧
    (isInt cfg.yMin →
      (∀ pts, (cutoutRects cfg cs).1 = some pts →
        ∃ a b : ℤ, pts.head? = some ((a : ℚ), (b : ℚ))) ∧
      (∀ pts, (cutoutRects cfg cs).2.1 = some pts →
        ∃ a b : ℤ, pts.head? = some ((a : ℚ), (b : ℚ)))) := by
  obtain ⟨d1, d2, d3, d4, d5, d6, d7, d8, hSE, hSW, hNE, hNW⟩ :=
    scanGlyph_GlyphInv cfg cs hS hbox
  exact ⟨fun pts h => (emitSE_props cfg _ hS d1 d2 hSE pts h).2.1,
         fun pts h => (emitSW_props cfg _ hS d3 d4 hSW pts h).2.1,
         fun pts h => (emitNE_props cfg _ hS d5 d6 hNE pts h).2.1,
         fun pts h => (emitNW_props cfg _ hS d7 d8 hNW pts h).2.1,
         fun hY =>
           ⟨fun pts h => (emitNE_props cfg _ hS d5 d6 hNE pts h).2.2.1 hY,
            fun pts h => (emitNW_props cfg _ hS d7 d8 hNW pts h).2.2.1 hY⟩⟩

/-- Witness for C3: the integrality statement instantiated on `cfg200`
with the single contour `ctSym` (integer `yMin = 0`), where all four
rectangles are emitted. -/
theorem c3_witness :
    Sane cfg200 ∧ (∀ c ∈ [ctSym], InBox cfg200 c) ∧
    ((∀ pts, (cutoutRects cfg200 [ctSym]).2.2.1 = some pts →
      ∃ a b : ℤ, pts.head? = some ((a : ℚ), (b : ℚ))) ∧
    (∀ pts, (cutoutRects cfg200 [ctSym]).2.2.2 = some pts →
      ∃ a b : ℤ, pts.head? = some ((a : ℚ), (b : ℚ))) ∧
    (∀ pts, (cutoutRects cfg200 [ctSym]).1 = some pts →
      ∃ a : ℤ, ∃ b : ℚ, pts.head? = some ((a : ℚ), b)) ∧
    (∀ pts, (cutoutRects cfg200 [ctSym]).2.1 = some pts →
      ∃ a : ℤ, ∃ b : ℚ, pts.head? = some ((a : ℚ), b)) ∧
    (isInt cfg200.yMin →
      (∀ pts, (cutoutRects cfg200 [ctSym]).1 = some pts →
        ∃ a b : ℤ, pts.head? = some ((a : ℚ), (b : ℚ))) ∧
      (∀ pts, (cutoutRects cfg200 [ctSym]).2.1 = some pts →
        ∃ a b : ℤ, pts.head? = some ((a : ℚ), (b : ℚ))))) :=
  ⟨sane_cfg200, inbox_ctSym_list,
   c3_inner_corner_integer cfg200 [ctSym] sane_cfg200 inbox_ctSym_list⟩

/-! ## C8 -/

/-- C8 is confirmed (for sane metrics and in-box contours): every
emitted rectangle's inner corner lies within the bounding box, its third
point is exactly the corresponding bbox corner, and exactly two of its
four points carry the bbox corner's x (resp. y) coordinate. -/
theorem c8_emitted_rects (cfg : Config) (cs : List Contour) (hS : Sane cfg)
    (hbox : ∀ c ∈ cs, InBox cfg c) :
    (∀ pts, (cutoutRects cfg cs).1 = some pts → rectOK cfg cfg.xMax cfg.yMax pts) ∧
    (∀ pts, (cutoutRects cfg cs).2.1 = some pts → rectOK cfg cfg.xMin cfg.yMax pts) ∧
    (∀ pts, (cutoutRects cfg cs).2.2.1 = some pts → rectOK cfg cfg.xMax cfg.yMin pts) ∧
    (∀ pts, (cutoutRects cfg cs).2.2.2 = some pts → rectOK cfg cfg.xMin cfg.yMin pts) := by
  obtain ⟨d1, d2, d3, d4, d5, d6, d7, d8, hSE, hSW, hNE, hNW⟩ :=
    scanGlyph_GlyphInv cfg cs hS hbox
  exact ⟨fun pts h => (emitNE_props cfg _ hS d5 d6 hNE pts h).1,
         fun pts h => (emitNW_props cfg _ hS d7 d8 hNW pts h).1,
         fun pts h => (emitSE_props cfg _ hS d1 d2 hSE pts h).1,
         fun pts h => (emitSW_props cfg _ hS d3 d4 hSW pts h).1⟩

/-- Witness for C8: the bbox/corner statement instantiated on `cfg200`
with the single contour `ctSym`, where all four rectangles are
emitted. -/
theorem c8_witness :
    Sane cfg200 ∧ (∀ c ∈ [ctSym], InBox cfg200 c) ∧
    ((∀ pts, (cutoutRects cfg200 [ctSym]).1 = some pts →
        rectOK cfg200 cfg200.xMax cfg200.yMax pts) ∧
    (∀ pts, (cutoutRects cfg200 [ctSym]).2.1 = some pts →
        rectOK cfg200 cfg200.xMin cfg200.yMax pts) ∧
    (∀ pts, (cutoutRects cfg200 [ctSym]).2.2.1 = some pts →
        rectOK cfg200 cfg200.xMax cfg200.yMin pts) ∧
    (∀ pts, (cutoutRects cfg200 [ctSym]).2.2.2 = some pts →
        rectOK cfg200 cfg200.xMin cfg200.yMin pts)) :=
  ⟨sane_cfg200, inbox_ctSym_list,
   c8_emitted_rects cfg200 [ctSym] sane_cfg200 inbox_ctSym_list⟩

end Ekmelos
